import Mathlib

/-!
Verification of the blueprint-to-graph compiler
(`packages/@aws-cdk/pipelines/lib/bp-codepipeline/_graph-from-blueprint.ts`)
and the `Pipeline` wrapper (`bp-main/pipeline.ts`).

The compiler is a stateful, single-pass translator from a deployment
blueprint (waves, stages, stacks, steps, assets) into a dependency graph.
We embed it as explicit state passing over a node store: graph nodes live
in a list indexed by allocation order (node 0 is the root group), each
node carrying its name, its annotation payload, its owned children and
the nodes it depends on.  TypeScript object identity (Steps, stacks) is
represented by indices into a read-only `World` store.  Fallible code
returns `Except`; the recursion of `addAndRecurse` is given explicit
fuel, and we prove the fuel bound needed (one more than the number of
Steps) so that fuel exhaustion is unreachable in real use.

The generic graph container (`private/graph`) and the blueprint data
classes are external collaborators not part of these two files; they are
modelled from the spec's contract for them (ownership tree with
name-unique children, append-only dependency edges, bulk `dependOn`).
-/

set_option maxHeartbeats 1600000

/-- Asset kind tag (`AssetType` from `types`): file asset or docker image. -/
inductive AssetType where
  | file
  | dockerImage
deriving DecidableEq, Repr, Inhabited

/-- `StackAsset`: identity for dedup (`assetId`), identity of the concrete
variant (`assetSelector`), and the asset kind. -/
structure StackAsset where
  assetId : String
  assetSelector : String
  assetType : AssetType
deriving DecidableEq, Repr, Inhabited

/-- The node annotation payload (tagged union `GraphAnnotation` of the
source).  Steps and stacks are referenced by their `World` index. -/
inductive GraphAnn where
  | group
  | stackGroup (stack : Nat)
  | publishAssets (assets : List StackAsset)
  | step (step : Nat) (isBuildStep : Bool)
  | selfUpdate
  | prepare (stack : Nat)
  | execute (stack : Nat)
deriving DecidableEq, Repr, Inhabited

/-- Modelled from the spec: a node of the dependency-graph container
(`private/graph`, not part of the two source files).  A node has an
immutable name, an annotation (absent for the lazily created top-level
groups, which the source builds with `new Graph(name)` and no data),
its owned children, and the list of nodes it depends on (`dependOn`
appends; edges may point anywhere in the tree). -/
structure NodeData where
  name : String
  ann : Option GraphAnn
  children : List Nat
  deps : List Nat
deriving DecidableEq, Repr

instance : Inhabited NodeData := ⟨⟨"", none, [], []⟩⟩

/-- Modelled from the spec: an opaque artifact handle (`FileSet`),
tracking the Step (by index) that produced it. -/
structure FileSet where
  producer : Nat
deriving DecidableEq, Repr, Inhabited

/-- Modelled from the spec: the data of a `Step` as consumed by the
compiler — its id (used as the node name), its dependency Steps (by
index), its optional primary-output file set (the two optional layers of
`primaryOutput?.primaryOutput` are collapsed, since either being absent
behaves identically), and whether it is a source-type step
(`instanceof CodePipelineSource`). -/
structure StepData where
  name : String
  dependencySteps : List Nat
  primaryOutput : Option FileSet
  isSource : Bool
deriving DecidableEq, Repr

instance : Inhabited StepData := ⟨⟨"", [], none, false⟩⟩

/-- Modelled from the spec: a `StackDeployment` — name, required assets,
stacks (by index) it depends on, optional custom cloud-assembly source
(`customCloudAssembly?.primaryOutput` collapsed to one option). -/
structure StackData where
  stackName : String
  requiredAssets : List StackAsset
  dependsOnStacks : List Nat
  customCloudAssembly : Option FileSet
deriving DecidableEq, Repr

instance : Inhabited StackData := ⟨⟨"", [], [], none⟩⟩

/-- Modelled from the spec: a `StageDeployment` — ordered stacks plus
pre/post hook Steps. -/
structure StageDeployment where
  stageName : String
  stageStacks : List Nat
  pre : List Nat
  post : List Nat
deriving DecidableEq, Repr

/-- Modelled from the spec: a `Wave` — ordered stages plus pre/post. -/
structure Wave where
  id : String
  stages : List StageDeployment
  pre : List Nat
  post : List Nat
deriving DecidableEq, Repr

/-- Modelled from the spec: the `Blueprint` root — a designated synth
Step and the ordered waves. -/
structure Blueprint where
  synthStep : Nat
  waves : List Wave
deriving DecidableEq, Repr

/-- The read-only identity stores: Step index → Step data, stack index →
stack data.  TypeScript object identity becomes the index. -/
structure World where
  steps : List StepData
  stackStore : List StackData
deriving DecidableEq, Repr

def getStep (w : World) (i : Nat) : StepData := w.steps.getD i default

def getStack (w : World) (i : Nat) : StackData := w.stackStore.getD i default

/-- The compiler's fatal errors: the missing-synth-output configuration
error, the asset-memo invariant violation, and fuel exhaustion (an
artifact of the embedding; proved unreachable for sufficient fuel). -/
inductive CErr where
  | missingOutput (msg : String)
  | wrongDataType (msg : String)
  | outOfFuel
deriving DecidableEq, Repr

/-- The compiler state: the node store (node 0 is the root group), the
Step → node memo (`added`), the assetId → node memo (`assetNodes`), the
last-preparation-node pointer, the recorded cloud-assembly file set and
the two asset-naming counters. -/
structure CState where
  g : List NodeData
  added : List (Nat × Nat)
  assetNodes : List (String × Nat)
  lastPreparationNode : Nat
  cloudAssemblyFileSet : FileSet
  fileAssetCtr : Nat
  dockerAssetCtr : Nat
deriving DecidableEq, Repr

def getNode (s : CState) (i : Nat) : NodeData := s.g.getD i default

def setNode (s : CState) (i : Nat) (nd : NodeData) : CState :=
  { s with g := s.g.set i nd }

/-- Allocate a fresh node (`GraphNode.of` / `Graph.of` / `new Graph`);
its id is the current store length. -/
def newNode (s : CState) (name : String) (ann : Option GraphAnn) : Nat × CState :=
  (s.g.length, { s with g := s.g ++ [⟨name, ann, [], []⟩] })

/-- Modelled from the spec: `parent.add(child)` — attach a child under a
parent (composition edge). -/
def addChild (s : CState) (p c : Nat) : CState :=
  setNode s p { getNode s p with children := (getNode s p).children ++ [c] }

/-- Modelled from the spec: `a.dependOn(b)` — record that `a` must wait
for `b`. -/
def dependOn (s : CState) (a b : Nat) : CState :=
  setNode s a { getNode s a with deps := (getNode s a).deps ++ [b] }

/-- Modelled from the spec: `graph.tryGetChild(name)` — look up a direct
child by name, without creating. -/
def tryGetChild (s : CState) (p : Nat) (name : String) : Option Nat :=
  (getNode s p).children.find? (fun c => (getNode s c).name == name)

/-- `topLevelGraph(name)`: return the root's child of that name, creating
it first (with no annotation, as `new Graph(name)` does) if absent. -/
def topLevelGraph (s : CState) (name : String) : Nat × CState :=
  match tryGetChild s 0 name with
  | some r => (r, s)
  | none =>
    let r := (newNode s name none).1
    let s1 := (newNode s name none).2
    (r, addChild s1 0 r)

/-- The fresh-Step part of `addAndRecurse` (everything before the
recursion into the dependency Steps): create the node, override the
parent with the top-level "Source" group when the Step is a source-type
step, attach the node to the (possibly overridden) parent and register
it in the memo.  Returns the node, the effective parent and the state. -/
def attachFresh (w : World) (stepId parent : Nat) (s : CState) : Nat × Nat × CState :=
  let st := getStep w stepId
  let node := (newNode s st.name (some (.step stepId false))).1
  let s1 := (newNode s st.name (some (.step stepId false))).2
  let pr := if st.isSource then topLevelGraph s1 ("Source") else (parent, s1)
  let s3 := addChild pr.2 pr.1 node
  (node, pr.1, { s3 with added := (stepId, node) :: s3.added })

/-- The dependency loop of `addAndRecurse`, parameterized by the
recursive call at the next fuel level: each dependency Step is added
with the (possibly overridden) parent, and the current node is made to
depend on the resulting node. -/
def addDepsGo (rec : Nat → Nat → CState → Except CErr (Nat × CState))
    (node parent : Nat) : List Nat → CState → Except CErr CState
  | [], s => .ok s
  | dep :: rest, s =>
    match rec dep parent s with
    | .error e => .error e
    | .ok (pn, s1) => addDepsGo rec node parent rest (dependOn s1 node pn)

/-- `addAndRecurse(step, parent)`: memoized recursive Step placement.
On a memo hit the existing node is returned and the state (and the
parent argument) is ignored.  Otherwise the node is created, the parent
is overridden to the top-level "Source" group for source-type steps, the
node is attached and memoized, and only then are the dependency Steps
recursed into (so Step-level cycles resolve to the memoized node). -/
def addAndRecurse (w : World) : Nat → Nat → Nat → CState → Except CErr (Nat × CState)
  | 0, _, _, _ => .error .outOfFuel
  | fuel + 1, stepId, parent, s =>
    match s.added.lookup stepId with
    | some prev => .ok (prev, s)
    | none =>
      let a := attachFresh w stepId parent s
      match addDepsGo (addAndRecurse w fuel) a.1 a.2.1
          (getStep w stepId).dependencySteps a.2.2 with
      | .ok s5 => .ok (a.1, s5)
      | .error e => .error e

/-- `addDeps` names the dependency loop at a given fuel level. -/
def addDeps (w : World) (fuel node parent : Nat) (deps : List Nat) (s : CState) :
    Except CErr CState :=
  addDepsGo (addAndRecurse w fuel) node parent deps s

/-- Render an annotation's `type` tag for the invariant-violation error
message (`data?.type` stringifies to "undefined" when absent). -/
def annTypeStr : Option GraphAnn → String
  | none => "undefined"
  | some .group => "group"
  | some (.stackGroup _) => "stack-group"
  | some (.publishAssets _) => "publish-assets"
  | some (.step _ _) => "step"
  | some .selfUpdate => "self-update"
  | some (.prepare _) => "prepare"
  | some (.execute _) => "execute"

/-- The invariant-violation message: the node's identity (modelled from
the spec: reported with the node's identity) and its actual variant. -/
def mkWrongMsg (s : CState) (n : Nat) : String :=
  (getNode s n).name ++ " has the wrong data.type: " ++ annTypeStr (getNode s n).ann

/-- The unconditional tail of `publishAsset`: pick the next counter-based
name for the asset kind, create the publish node seeded with this single
asset, register it in the asset memo, attach it under the Assets group
and make it depend on the last preparation node. -/
def mkNewAssetNode (s : CState) (a : StackAsset) (assetsGraph : Nat) : Nat × CState :=
  let p : String × CState :=
    match a.assetType with
    | .file =>
      ("FileAsset" ++ toString (s.fileAssetCtr + 1), { s with fileAssetCtr := s.fileAssetCtr + 1 })
    | .dockerImage =>
      ("DockerAsset" ++ toString (s.dockerAssetCtr + 1), { s with dockerAssetCtr := s.dockerAssetCtr + 1 })
  let newN := (newNode p.2 p.1 (some (.publishAssets [a]))).1
  let s2 := (newNode p.2 p.1 (some (.publishAssets [a]))).2
  let s3 := { s2 with assetNodes := (a.assetId, newN) :: s2.assetNodes }
  let s4 := addChild s3 assetsGraph newN
  (newN, dependOn s4 newN s4.lastPreparationNode)

/-- `publishAsset(stackAsset)`, exactly as the source has it: on a memo
hit with a non-publish node, fail fatally; on a memo hit with a valid
publish node, append the selector if new — and then (the source has no
early return here) fall through to `mkNewAssetNode` like the miss case,
creating a second node, re-bumping the counter and overwriting the memo. -/
def publishAsset (s : CState) (a : StackAsset) : Except CErr (Nat × CState) :=
  let ag := (topLevelGraph s ("Assets")).1
  let s1 := (topLevelGraph s ("Assets")).2
  match s1.assetNodes.lookup a.assetId with
  | some assetNode =>
    match (getNode s1 assetNode).ann with
    | some (.publishAssets assets) =>
      let s2 :=
        if assets.any (fun x => x.assetSelector == a.assetSelector) then s1
        else setNode s1 assetNode
          { getNode s1 assetNode with ann := some (.publishAssets (assets ++ [a])) }
      .ok (mkNewAssetNode s2 a ag)
    | _ => .error (.wrongDataType (mkWrongMsg s1 assetNode))
  | none => .ok (mkNewAssetNode s1 a ag)

/-- The asset loop of `addStage`: publish each required asset and make
the stack's Prepare node depend on the publish node. -/
def pubAssets (prep : Nat) : List StackAsset → CState → Except CErr CState
  | [], s => .ok s
  | a :: rest, s =>
    match publishAsset s a with
    | .error e => .error e
    | .ok (an, s1) => pubAssets prep rest (dependOn s1 prep an)

/-- The stateful prefix of one `addStage` first-pass iteration: the
stack-scoped group with its Prepare and Deploy nodes attached, and
Deploy depending on Prepare.  Returns the stack graph, the Prepare node
and the state. -/
def stackPairBase (w : World) (stId : Nat) (s : CState) : Nat × Nat × CState :=
  let stack := getStack w stId
  let stackGraph := (newNode s stack.stackName (some (.stackGroup stId))).1
  let s1 := (newNode s stack.stackName (some (.stackGroup stId))).2
  let prep := (newNode s1 ("Prepare") (some (.prepare stId))).1
  let s2 := (newNode s1 ("Prepare") (some (.prepare stId))).2
  let deploy := (newNode s2 ("Deploy") (some (.execute stId))).1
  let s3 := (newNode s2 ("Deploy") (some (.execute stId))).2
  let s4 := addChild (addChild s3 stackGraph prep) stackGraph deploy
  (stackGraph, prep, dependOn s4 deploy prep)

/-- One iteration of `addStage`'s first pass: the stack-scoped group
with Prepare and Deploy, Prepare after the applicable cloud-assembly
producer (added into the stage's group) and after each required asset's
publish node. -/
def addStackPair (w : World) (fuel retGraph stId : Nat) (s : CState) :
    Except CErr (Nat × CState) :=
  let b := stackPairBase w stId s
  let ca := (getStack w stId).customCloudAssembly.getD b.2.2.cloudAssemblyFileSet
  match addAndRecurse w fuel ca.producer retGraph b.2.2 with
  | .error e => .error e
  | .ok (prod, s6) =>
    match pubAssets b.2.1 (getStack w stId).requiredAssets (dependOn s6 b.2.1 prod) with
    | .error e => .error e
    | .ok s8 => .ok (b.1, s8)

/-- `addStage`'s first pass over the stage's stacks, accumulating the
stack → stack-graph map (cons-first, so lookup matches `Map.set`
overwrite semantics). -/
def addStacks (w : World) (fuel retGraph : Nat) :
    List Nat → List (Nat × Nat) → CState → Except CErr (List (Nat × Nat) × CState)
  | [], acc, s => .ok (acc, s)
  | stId :: rest, acc, s =>
    match addStackPair w fuel retGraph stId s with
    | .error e => .error e
    | .ok (sg, s1) => addStacks w fuel retGraph rest ((stId, sg) :: acc) s1

/-- `addStage`'s second pass: for each stack of the stage, for each stack
it declares a dependency on, make its stack-scoped group depend on the
other stack's group (a declared dependency outside the stage's map is
skipped). -/
def crossDeps (w : World) (sgs : List (Nat × Nat)) (stackIds : List Nat) (s : CState) : CState :=
  stackIds.foldl
    (fun acc stId =>
      (getStack w stId).dependsOnStacks.foldl
        (fun acc2 dep =>
          match sgs.lookup stId, sgs.lookup dep with
          | some gr, some dg => dependOn acc2 gr dg
          | _, _ => acc2)
        acc)
    s

/-- The pre loop of `addPrePost`: every baseline node is made to depend
on each pre node as it is added. -/
def addPres (w : World) (fuel : Nat) (baseline : List Nat) :
    List Nat → Nat → CState → Except CErr CState
  | [], _, s => .ok s
  | p :: rest, parent, s =>
    match addAndRecurse w fuel p parent s with
    | .error e => .error e
    | .ok (preNode, s1) =>
      addPres w fuel baseline rest parent
        (baseline.foldl (fun acc b => dependOn acc b preNode) s1)

/-- The post loop of `addPrePost`: each post node depends on every
baseline node (and on nothing else added by this procedure). -/
def addPosts (w : World) (fuel : Nat) (baseline : List Nat) :
    List Nat → Nat → CState → Except CErr CState
  | [], _, s => .ok s
  | p :: rest, parent, s =>
    match addAndRecurse w fuel p parent s with
    | .error e => .error e
    | .ok (postNode, s1) =>
      addPosts w fuel baseline rest parent
        (baseline.foldl (fun acc b => dependOn acc postNode b) s1)

/-- `addPrePost(pre, post, parent)`: snapshot the parent's direct
children as the baseline, then run the pre and post barrier loops. -/
def addPrePost (w : World) (fuel : Nat) (pre post : List Nat) (parent : Nat)
    (s : CState) : Except CErr CState :=
  let baseline := (getNode s parent).children
  match addPres w fuel baseline pre parent s with
  | .error e => .error e
  | .ok s1 => addPosts w fuel baseline post parent s1

/-- `addStage(stage)`: the stage group, pass one over the stacks, the
cross-stack ordering pass, then the stage's pre/post barrier. -/
def addStage (w : World) (fuel : Nat) (stage : StageDeployment) (s : CState) :
    Except CErr (Nat × CState) :=
  let retGraph := (newNode s stage.stageName (some .group)).1
  let sA := (newNode s stage.stageName (some .group)).2
  match addStacks w fuel retGraph stage.stageStacks [] sA with
  | .error e => .error e
  | .ok (sgs, s2) =>
    let s3 := crossDeps w sgs stage.stageStacks s2
    match addPrePost w fuel stage.pre stage.post retGraph s3 with
    | .error e => .error e
    | .ok s4 => .ok (retGraph, s4)

/-- The stage loop of a multi-stage wave: compile each stage in order,
collecting the stage graphs (in order). -/
def addStagesList (w : World) (fuel : Nat) :
    List StageDeployment → List Nat → CState → Except CErr (List Nat × CState)
  | [], acc, s => .ok (acc.reverse, s)
  | st :: rest, acc, s =>
    match addStage w fuel st s with
    | .error e => .error e
    | .ok (g, s1) => addStagesList w fuel rest (g :: acc) s1

/-- `addWave(wave)`: a single-stage wave's graph is the stage's graph
(no wrapping group); otherwise a group named after the wave containing
the compiled stages.  Then the wave's pre/post barrier, and the wave
graph depends on the last preparation node. -/
def addWave (w : World) (fuel : Nat) (wave : Wave) (s : CState) :
    Except CErr (Nat × CState) :=
  let built : Except CErr (Nat × CState) :=
    match wave.stages with
    | [st] => addStage w fuel st s
    | stages =>
      match addStagesList w fuel stages [] s with
      | .error e => .error e
      | .ok (ids, s1) =>
        let wg := (newNode s1 wave.id (some .group)).1
        let s2 := (newNode s1 wave.id (some .group)).2
        .ok (wg, ids.foldl (fun acc c => addChild acc wg c) s2)
  match built with
  | .error e => .error e
  | .ok (retGraph, s3) =>
    match addPrePost w fuel wave.pre wave.post retGraph s3 with
    | .error e => .error e
    | .ok s4 => .ok (retGraph, dependOn s4 retGraph s4.lastPreparationNode)

/-- The wave loop of the constructor, collecting wave graphs in order. -/
def addWaves (w : World) (fuel : Nat) :
    List Wave → List Nat → CState → Except CErr (List Nat × CState)
  | [], acc, s => .ok (acc.reverse, s)
  | wv :: rest, acc, s =>
    match addWave w fuel wv s with
    | .error e => .error e
    | .ok (g, s1) => addWaves w fuel rest (g :: acc) s1

/-- The sequential-waves loop: `waves[i].dependOn(waves[i-1])` for every
`i ≥ 1`. -/
def chainWaves (s : CState) : List Nat → CState
  | [] => s
  | [_] => s
  | a :: b :: rest => chainWaves (dependOn s b a) (b :: rest)

/-- The constructor's result: the final state plus the distinguished
nodes it exposes (the synth node for `isSynthNode`, the wave graphs, the
optional self-mutate node). -/
structure CompileResult where
  state : CState
  synthNode : Nat
  waveNodes : List Nat
  selfMutateNode : Option Nat
deriving DecidableEq, Repr

/-- The initial compiler state: the root group (`Graph.of('', group)`)
and empty memos.  `lastPreparationNode` and `cloudAssemblyFileSet` are
definitely assigned by the constructor before use; their initial values
here are placeholders. -/
def initState : CState :=
  { g := [⟨"", some .group, [], []⟩]
    added := []
    assetNodes := []
    lastPreparationNode := 0
    cloudAssemblyFileSet := ⟨0⟩
    fileAssetCtr := 0
    dockerAssetCtr := 0 }

/-- Mark the synth node as the build step (`data.isBuildStep = true`,
guarded by the node's annotation being the step variant). -/
def markBuildStep (s : CState) (n : Nat) : CState :=
  match (getNode s n).ann with
  | some (.step st _) => setNode s n { getNode s n with ann := some (.step st true) }
  | _ => s

/-- The self-mutation block of the constructor: an "UpdatePipeline"
group under the root holding a "SelfMutate" node that depends on the
synth node; the last-preparation pointer advances to it. -/
def selfMutationState (s : CState) (synthNode : Nat) : Nat × CState :=
  let stageG := (newNode s ("UpdatePipeline") (some .group)).1
  let sa := (newNode s ("UpdatePipeline") (some .group)).2
  let sb := addChild sa 0 stageG
  let sm := (newNode sb ("SelfMutate") (some .selfUpdate)).1
  let sc := (newNode sb ("SelfMutate") (some .selfUpdate)).2
  (sm, { dependOn (addChild sc stageG sm) sm synthNode with lastPreparationNode := sm })

/-- The `GraphFromBlueprint` constructor: add the synth step under
"Build", mark it as the build step, check the synth output (fatal
missing-output error otherwise), record the cloud-assembly file set,
optionally create the self-mutation stage, compile the waves, then chain
them sequentially. -/
def graphFromBlueprint (w : World) (bp : Blueprint) (selfMutation : Bool)
    (fuel : Nat) : Except CErr CompileResult :=
  match addAndRecurse w fuel bp.synthStep (topLevelGraph initState ("Build")).1
      (topLevelGraph initState ("Build")).2 with
  | .error e => .error e
  | .ok (synthNode, s2) =>
    let s4 := { markBuildStep s2 synthNode with lastPreparationNode := synthNode }
    match (getStep w bp.synthStep).primaryOutput with
    | none =>
      .error (.missingOutput
        ("The synth step must produce the cloud assembly artifact, but doesn\x27t: "
          ++ (getStep w bp.synthStep).name))
    | some ca =>
      let s5 := { s4 with cloudAssemblyFileSet := ca }
      let sm : Option Nat × CState :=
        if selfMutation then
          (some (selfMutationState s5 synthNode).1, (selfMutationState s5 synthNode).2)
        else (none, s5)
      match addWaves w fuel bp.waves [] sm.2 with
      | .error e => .error e
      | .ok (waveIds, s7) =>
        .ok { state := chainWaves s7 waveIds
              synthNode := synthNode
              waveNodes := waveIds
              selfMutateNode := sm.1 }

/-- `isSynthNode(node)`. -/
def isSynthNode (r : CompileResult) (n : Nat) : Bool := r.synthNode == n

/-! ### Store lemmas -/

theorem listGetD_set_self {α} (l : List α) (i : Nat) (v d : α) (h : i < l.length) :
    (l.set i v).getD i d = v := by
  simp [List.getD_eq_getElem?_getD, List.getElem?_set_self, h]

theorem listGetD_set_ne {α} (l : List α) (i j : Nat) (v d : α) (h : i ≠ j) :
    (l.set i v).getD j d = l.getD j d := by
  simp [List.getD_eq_getElem?_getD, List.getElem?_set_ne, h]

theorem listGetD_append_lt {α} (l t : List α) (i : Nat) (d : α) (h : i < l.length) :
    (l ++ t).getD i d = l.getD i d := by
  simp [List.getD_eq_getElem?_getD, List.getElem?_append_left, h]

theorem listGetD_append_len {α} (l : List α) (v d : α) :
    (l ++ [v]).getD l.length d = v := by
  simp [List.getD_eq_getElem?_getD]

theorem listGetD_ge {α} (l : List α) (i : Nat) (d : α) (h : l.length ≤ i) :
    l.getD i d = d := by
  simp [List.getD_eq_getElem?_getD, List.getElem?_eq_none h]

theorem getNode_ge (s : CState) (i : Nat) (h : s.g.length ≤ i) : getNode s i = default :=
  listGetD_ge _ _ _ h

theorem length_setNode (s : CState) (i : Nat) (nd : NodeData) :
    (setNode s i nd).g.length = s.g.length := by simp [setNode]

theorem getNode_setNode_self (s : CState) (i : Nat) (nd : NodeData) (h : i < s.g.length) :
    getNode (setNode s i nd) i = nd := by
  simp [getNode, setNode, listGetD_set_self, h]

theorem getNode_setNode_ne (s : CState) (i j : Nat) (nd : NodeData) (h : i ≠ j) :
    getNode (setNode s i nd) j = getNode s j := by
  simp [getNode, setNode, List.getD_eq_getElem?_getD, List.getElem?_set_ne, h]

theorem length_newNode (s : CState) (nm : String) (an : Option GraphAnn) :
    (newNode s nm an).2.g.length = s.g.length + 1 := by simp [newNode]

theorem newNode_fst (s : CState) (nm : String) (an : Option GraphAnn) :
    (newNode s nm an).1 = s.g.length := rfl

theorem getNode_newNode_lt (s : CState) (nm : String) (an : Option GraphAnn) (i : Nat)
    (h : i < s.g.length) : getNode (newNode s nm an).2 i = getNode s i := by
  simp [getNode, newNode, List.getD_eq_getElem?_getD, List.getElem?_append_left, h]

theorem getNode_newNode_self (s : CState) (nm : String) (an : Option GraphAnn) :
    getNode (newNode s nm an).2 s.g.length = ⟨nm, an, [], []⟩ := by
  simp [getNode, newNode, listGetD_append_len]

theorem getNode_newNode_gt (s : CState) (nm : String) (an : Option GraphAnn) (i : Nat)
    (h : s.g.length + 1 ≤ i) : getNode (newNode s nm an).2 i = default := by
  apply getNode_ge
  simpa [length_newNode] using h

theorem length_addChild (s : CState) (p c : Nat) :
    (addChild s p c).g.length = s.g.length := length_setNode _ _ _

theorem getNode_addChild_ne (s : CState) (p c j : Nat) (h : p ≠ j) :
    getNode (addChild s p c) j = getNode s j := getNode_setNode_ne _ _ _ _ h

theorem getNode_addChild_self (s : CState) (p c : Nat) (h : p < s.g.length) :
    getNode (addChild s p c) p =
      { getNode s p with children := (getNode s p).children ++ [c] } :=
  getNode_setNode_self _ _ _ h

theorem getNode_addChild_ge (s : CState) (p c : Nat) (h : s.g.length ≤ p) :
    addChild s p c = s := by
  simp [addChild, setNode, List.set_eq_of_length_le, getNode_ge s p h, h]

theorem length_dependOn (s : CState) (a b : Nat) :
    (dependOn s a b).g.length = s.g.length := length_setNode _ _ _

theorem getNode_dependOn_ne (s : CState) (a b j : Nat) (h : a ≠ j) :
    getNode (dependOn s a b) j = getNode s j := getNode_setNode_ne _ _ _ _ h

theorem getNode_dependOn_self (s : CState) (a b : Nat) (h : a < s.g.length) :
    getNode (dependOn s a b) a =
      { getNode s a with deps := (getNode s a).deps ++ [b] } :=
  getNode_setNode_self _ _ _ h

theorem getNode_dependOn_ge (s : CState) (a b : Nat) (h : s.g.length ≤ a) :
    dependOn s a b = s := by
  simp [dependOn, setNode, List.set_eq_of_length_le, getNode_ge s a h, h]

theorem setNode_misc (s : CState) (i : Nat) (nd : NodeData) :
    (setNode s i nd).added = s.added ∧ (setNode s i nd).assetNodes = s.assetNodes ∧
    (setNode s i nd).lastPreparationNode = s.lastPreparationNode ∧
    (setNode s i nd).cloudAssemblyFileSet = s.cloudAssemblyFileSet ∧
    (setNode s i nd).fileAssetCtr = s.fileAssetCtr ∧
    (setNode s i nd).dockerAssetCtr = s.dockerAssetCtr := by
  simp [setNode]

/-- A node's dependency list gains the new entry when the node exists. -/
theorem dependOn_mem (s : CState) (a b : Nat) (h : a < s.g.length) :
    b ∈ (getNode (dependOn s a b) a).deps := by
  rw [getNode_dependOn_self s a b h]; simp

/-! ### The evolution relation

`Evolves s s'` captures what every compiler operation does to the store:
the store only grows, the Step memo only gains entries, children and
dependency lists of any node are only appended to, names of existing
nodes never change, and a publish-annotated node stays
publish-annotated. -/

structure Evolves (s s' : CState) : Prop where
  len_le : s.g.length ≤ s'.g.length
  added_mono : ∀ k v, s.added.lookup k = some v → s'.added.lookup k = some v
  children_ext : ∀ i, ∃ t, (getNode s' i).children = (getNode s i).children ++ t
  deps_ext : ∀ i, ∃ t, (getNode s' i).deps = (getNode s i).deps ++ t
  name_eq : ∀ i, i < s.g.length → (getNode s' i).name = (getNode s i).name
  ann_publish : ∀ i as, (getNode s i).ann = some (.publishAssets as) →
    ∃ as2, (getNode s' i).ann = some (.publishAssets as2)
  ca_eq : s'.cloudAssemblyFileSet = s.cloudAssemblyFileSet

theorem Evolves.erefl (s : CState) : Evolves s s :=
  ⟨le_refl _, fun _ _ h => h, fun i => ⟨[], by simp⟩, fun i => ⟨[], by simp⟩,
   fun _ _ => Eq.refl _, fun _ as h => ⟨as, h⟩, Eq.refl _⟩

theorem Evolves.etrans {s1 s2 s3 : CState} (a : Evolves s1 s2) (b : Evolves s2 s3) :
    Evolves s1 s3 := by
  refine ⟨le_trans a.len_le b.len_le, fun k v h => b.added_mono k v (a.added_mono k v h),
    fun i => ?_, fun i => ?_, fun i h => ?_, fun i as h => ?_,
    by rw [b.ca_eq, a.ca_eq]⟩
  · obtain ⟨t1, h1⟩ := a.children_ext i
    obtain ⟨t2, h2⟩ := b.children_ext i
    exact ⟨t1 ++ t2, by rw [h2, h1, List.append_assoc]⟩
  · obtain ⟨t1, h1⟩ := a.deps_ext i
    obtain ⟨t2, h2⟩ := b.deps_ext i
    exact ⟨t1 ++ t2, by rw [h2, h1, List.append_assoc]⟩
  · rw [b.name_eq i (lt_of_lt_of_le h a.len_le), a.name_eq i h]
  · obtain ⟨as2, h2⟩ := a.ann_publish i as h
    exact b.ann_publish i as2 h2

theorem Evolves.children_mem {s s' : CState} (e : Evolves s s') {i x : Nat}
    (h : x ∈ (getNode s i).children) : x ∈ (getNode s' i).children := by
  obtain ⟨t, ht⟩ := e.children_ext i
  rw [ht]; exact List.mem_append_left _ h

theorem Evolves.deps_mem {s s' : CState} (e : Evolves s s') {i x : Nat}
    (h : x ∈ (getNode s i).deps) : x ∈ (getNode s' i).deps := by
  obtain ⟨t, ht⟩ := e.deps_ext i
  rw [ht]; exact List.mem_append_left _ h

/-- The strengthened evolution relation satisfied by `addAndRecurse` and
its helpers: additionally the asset memo, the pointers and the counters
are untouched, annotations of pre-existing nodes are unchanged, and any
child added to any node is a freshly allocated one. -/
structure StepEvolve (s s' : CState) : Prop where
  ev : Evolves s s'
  assets_eq : s'.assetNodes = s.assetNodes
  lastPrep_eq : s'.lastPreparationNode = s.lastPreparationNode
  ca_eq : s'.cloudAssemblyFileSet = s.cloudAssemblyFileSet
  fctr_eq : s'.fileAssetCtr = s.fileAssetCtr
  dctr_eq : s'.dockerAssetCtr = s.dockerAssetCtr
  ann_lt : ∀ i, i < s.g.length → (getNode s' i).ann = (getNode s i).ann
  children_fresh : ∀ i x, x ∈ (getNode s' i).children →
    x ∈ (getNode s i).children ∨ s.g.length ≤ x

theorem StepEvolve.srefl (s : CState) : StepEvolve s s :=
  ⟨Evolves.erefl s, Eq.refl _, Eq.refl _, Eq.refl _, Eq.refl _, Eq.refl _,
   fun _ _ => Eq.refl _, fun _ _ h => Or.inl h⟩

theorem StepEvolve.strans {s1 s2 s3 : CState} (a : StepEvolve s1 s2) (b : StepEvolve s2 s3) :
    StepEvolve s1 s3 := by
  refine ⟨a.ev.etrans b.ev, by rw [b.assets_eq, a.assets_eq],
    by rw [b.lastPrep_eq, a.lastPrep_eq], by rw [b.ca_eq, a.ca_eq],
    by rw [b.fctr_eq, a.fctr_eq], by rw [b.dctr_eq, a.dctr_eq],
    fun i h => ?_, fun i x h => ?_⟩
  · rw [b.ann_lt i (lt_of_lt_of_le h a.ev.len_le), a.ann_lt i h]
  · rcases b.children_fresh i x h with h2 | h2
    · exact a.children_fresh i x h2
    · exact Or.inr (le_trans a.ev.len_le h2)

/-! ### StepEvolve through the primitive operations, relative to a fixed
origin state -/

theorem stepEvolve_newNode_of {s0 s1 : CState} (h : StepEvolve s0 s1)
    (nm : String) (an : Option GraphAnn) : StepEvolve s0 (newNode s1 nm an).2 := by
  refine StepEvolve.strans h ?_
  refine ⟨⟨by simp [length_newNode], ?_, fun i => ?_, fun i => ?_, fun i hi => ?_,
      fun i as ha => ?_, by simp [newNode]⟩, ?_, ?_, ?_, ?_, ?_, fun i hi => ?_,
    fun i x hx => ?_⟩
  · intro k v hv; simpa [newNode] using hv
  · rcases Nat.lt_trichotomy i s1.g.length with hi | hi | hi
    · exact ⟨[], by simp [getNode_newNode_lt _ _ _ _ hi]⟩
    · subst hi
      refine ⟨[], ?_⟩
      rw [getNode_newNode_self, getNode_ge s1 s1.g.length (le_refl _)]
      simp [default]
    · refine ⟨[], ?_⟩
      rw [getNode_newNode_gt _ _ _ _ hi, getNode_ge s1 i (le_of_lt hi)]
      simp
  · rcases Nat.lt_trichotomy i s1.g.length with hi | hi | hi
    · exact ⟨[], by simp [getNode_newNode_lt _ _ _ _ hi]⟩
    · subst hi
      refine ⟨[], ?_⟩
      rw [getNode_newNode_self, getNode_ge s1 s1.g.length (le_refl _)]
      simp [default]
    · refine ⟨[], ?_⟩
      rw [getNode_newNode_gt _ _ _ _ hi, getNode_ge s1 i (le_of_lt hi)]
      simp
  · rw [getNode_newNode_lt _ _ _ _ hi]
  · rw [getNode_newNode_lt]
    · exact ⟨as, ha⟩
    · by_contra hcon
      rw [getNode_ge s1 i (le_of_not_lt hcon)] at ha
      simp [default] at ha
  · simp [newNode]
  · simp [newNode]
  · simp [newNode]
  · simp [newNode]
  · simp [newNode]
  · rw [getNode_newNode_lt _ _ _ _ hi]
  · rcases Nat.lt_trichotomy i s1.g.length with hi | hi | hi
    · rw [getNode_newNode_lt _ _ _ _ hi] at hx; exact Or.inl hx
    · subst hi; rw [getNode_newNode_self] at hx; simp at hx
    · rw [getNode_newNode_gt _ _ _ _ hi] at hx; simp [default] at hx

theorem stepEvolve_addChild_of {s0 s1 : CState} (h : StepEvolve s0 s1) {c : Nat}
    (p : Nat) (hc : s0.g.length ≤ c) : StepEvolve s0 (addChild s1 p c) := by
  by_cases hp : p < s1.g.length
  · have hmisc : (addChild s1 p c).added = s1.added ∧
        (addChild s1 p c).assetNodes = s1.assetNodes ∧
        (addChild s1 p c).lastPreparationNode = s1.lastPreparationNode ∧
        (addChild s1 p c).cloudAssemblyFileSet = s1.cloudAssemblyFileSet ∧
        (addChild s1 p c).fileAssetCtr = s1.fileAssetCtr ∧
        (addChild s1 p c).dockerAssetCtr = s1.dockerAssetCtr := by
      simp [addChild, setNode]
    refine ⟨⟨le_trans h.ev.len_le (by rw [length_addChild]), ?_, fun i => ?_, fun i => ?_,
        fun i hi => ?_, fun i as ha => ?_,
        by rw [show (addChild s1 p c).cloudAssemblyFileSet = s1.cloudAssemblyFileSet from rfl,
          h.ev.ca_eq]⟩,
      by rw [hmisc.2.1, h.assets_eq], by rw [hmisc.2.2.1, h.lastPrep_eq],
      by rw [hmisc.2.2.2.1, h.ca_eq], by rw [hmisc.2.2.2.2.1, h.fctr_eq],
      by rw [hmisc.2.2.2.2.2, h.dctr_eq], fun i hi => ?_, fun i x hx => ?_⟩
    · intro k v hv
      rw [hmisc.1]
      exact h.ev.added_mono k v hv
    · obtain ⟨t, ht⟩ := h.ev.children_ext i
      by_cases hip : p = i
      · subst hip
        refine ⟨t ++ [c], ?_⟩
        rw [getNode_addChild_self _ _ _ hp]
        simp [ht]
      · rw [getNode_addChild_ne _ _ _ _ hip]
        exact ⟨t, ht⟩
    · obtain ⟨t, ht⟩ := h.ev.deps_ext i
      by_cases hip : p = i
      · subst hip
        refine ⟨t, ?_⟩
        rw [getNode_addChild_self _ _ _ hp]
        simpa using ht
      · rw [getNode_addChild_ne _ _ _ _ hip]
        exact ⟨t, ht⟩
    · by_cases hip : p = i
      · subst hip
        rw [getNode_addChild_self _ _ _ hp]
        exact h.ev.name_eq _ hi
      · rw [getNode_addChild_ne _ _ _ _ hip]
        exact h.ev.name_eq _ hi
    · by_cases hip : p = i
      · subst hip
        rw [getNode_addChild_self _ _ _ hp]
        exact h.ev.ann_publish _ as ha
      · rw [getNode_addChild_ne _ _ _ _ hip]
        exact h.ev.ann_publish _ as ha
    · by_cases hip : p = i
      · subst hip
        rw [getNode_addChild_self _ _ _ hp]
        exact h.ann_lt _ hi
      · rw [getNode_addChild_ne _ _ _ _ hip]
        exact h.ann_lt _ hi
    · by_cases hip : p = i
      · subst hip
        rw [getNode_addChild_self _ _ _ hp] at hx
        simp at hx
        rcases hx with hx | hx
        · exact h.children_fresh _ x hx
        · subst hx
          exact Or.inr hc
      · rw [getNode_addChild_ne _ _ _ _ hip] at hx
        exact h.children_fresh _ x hx
  · rw [getNode_addChild_ge s1 p c (le_of_not_lt hp)]
    exact h

theorem stepEvolve_dependOn_of {s0 s1 : CState} (h : StepEvolve s0 s1)
    (a b : Nat) : StepEvolve s0 (dependOn s1 a b) := by
  refine StepEvolve.strans h ?_
  by_cases ha : a < s1.g.length
  · refine ⟨⟨by simp [length_dependOn], ?_, fun i => ?_, fun i => ?_, fun i hi => ?_,
        fun i as hann => ?_, by simp [dependOn, setNode]⟩, ?_, ?_, ?_, ?_, ?_,
      fun i hi => ?_, fun i x hx => ?_⟩
    · intro k v hv; simpa [dependOn, setNode] using hv
    · by_cases hip : a = i
      · subst hip
        refine ⟨[], ?_⟩
        rw [getNode_dependOn_self _ _ _ ha]
        simp
      · exact ⟨[], by simp [getNode_dependOn_ne _ _ _ _ hip]⟩
    · by_cases hip : a = i
      · subst hip
        refine ⟨[b], ?_⟩
        rw [getNode_dependOn_self _ _ _ ha]
      · exact ⟨[], by simp [getNode_dependOn_ne _ _ _ _ hip]⟩
    · by_cases hip : a = i
      · subst hip; rw [getNode_dependOn_self _ _ _ ha]
      · rw [getNode_dependOn_ne _ _ _ _ hip]
    · by_cases hip : a = i
      · subst hip; rw [getNode_dependOn_self _ _ _ ha]; exact ⟨as, hann⟩
      · rw [getNode_dependOn_ne _ _ _ _ hip]; exact ⟨as, hann⟩
    · simp [dependOn, setNode]
    · simp [dependOn, setNode]
    · simp [dependOn, setNode]
    · simp [dependOn, setNode]
    · simp [dependOn, setNode]
    · by_cases hip : a = i
      · subst hip; rw [getNode_dependOn_self _ _ _ ha]
      · rw [getNode_dependOn_ne _ _ _ _ hip]
    · by_cases hip : a = i
      · subst hip; rw [getNode_dependOn_self _ _ _ ha] at hx; exact Or.inl hx
      · rw [getNode_dependOn_ne _ _ _ _ hip] at hx; exact Or.inl hx
  · rw [getNode_dependOn_ge s1 a b (le_of_not_lt ha)]
    exact StepEvolve.srefl s1

theorem stepEvolve_topLevel_of {s0 s1 : CState} (h : StepEvolve s0 s1)
    (nm : String) : StepEvolve s0 (topLevelGraph s1 nm).2 := by
  unfold topLevelGraph
  cases htg : tryGetChild s1 0 nm with
  | some r => exact h
  | none =>
    simp only []
    exact stepEvolve_addChild_of (stepEvolve_newNode_of h nm none) 0
      (le_trans h.ev.len_le (Nat.le_refl s1.g.length))

theorem stepEvolve_memo_of {s0 s1 : CState} (h : StepEvolve s0 s1) {k v : Nat}
    (hk : s0.added.lookup k = none) :
    StepEvolve s0 { s1 with added := (k, v) :: s1.added } := by
  have hg : ∀ i, getNode { s1 with added := (k, v) :: s1.added } i = getNode s1 i := by
    intro i; rfl
  refine ⟨⟨h.ev.len_le, ?_, fun i => by rw [hg]; exact h.ev.children_ext i,
      fun i => by rw [hg]; exact h.ev.deps_ext i,
      fun i hi => by rw [hg]; exact h.ev.name_eq i hi,
      fun i as ha => by rw [hg]; exact h.ev.ann_publish i as ha, h.ev.ca_eq⟩,
    h.assets_eq, h.lastPrep_eq, h.ca_eq, h.fctr_eq, h.dctr_eq,
    fun i hi => by rw [hg]; exact h.ann_lt i hi,
    fun i x hx => h.children_fresh i x (by rw [hg] at hx; exact hx)⟩
  intro k2 v2 hv2
  have hkk : k2 ≠ k := by
    intro hcon
    subst hcon
    rw [hk] at hv2
    exact Option.noConfusion hv2
  show List.lookup k2 ((k, v) :: s1.added) = some v2
  rw [List.lookup_cons]
  have hbe : (k2 == k) = false := beq_eq_false_iff_ne.mpr hkk
  simp only [hbe]
  exact h.ev.added_mono k2 v2 hv2

/-! ### Unfolding lemmas for the recursive pair -/

theorem addAndRecurse_zero (w : World) (stepId parent : Nat) (s : CState) :
    addAndRecurse w 0 stepId parent s = .error .outOfFuel := rfl

theorem addAndRecurse_succ (w : World) (fuel stepId parent : Nat) (s : CState) :
    addAndRecurse w (fuel + 1) stepId parent s =
      match s.added.lookup stepId with
      | some prev => .ok (prev, s)
      | none =>
        match addDeps w fuel (attachFresh w stepId parent s).1
            (attachFresh w stepId parent s).2.1
            (getStep w stepId).dependencySteps (attachFresh w stepId parent s).2.2 with
        | .ok s5 => .ok ((attachFresh w stepId parent s).1, s5)
        | .error e => .error e := rfl

theorem addDeps_nil (w : World) (fuel node parent : Nat) (s : CState) :
    addDeps w fuel node parent [] s = .ok s := rfl

theorem addDeps_cons (w : World) (fuel node parent dep : Nat) (rest : List Nat) (s : CState) :
    addDeps w fuel node parent (dep :: rest) s =
      match addAndRecurse w fuel dep parent s with
      | .error e => .error e
      | .ok (pn, s1) => addDeps w fuel node parent rest (dependOn s1 node pn) := rfl

/-! ### attachFresh facts -/

theorem attachFresh_fst (w : World) (stepId parent : Nat) (s : CState) :
    (attachFresh w stepId parent s).1 = s.g.length := rfl

theorem attachFresh_added (w : World) (stepId parent : Nat) (s : CState) :
    (attachFresh w stepId parent s).2.2.added = (stepId, s.g.length) :: s.added := by
  simp only [attachFresh]
  by_cases hsrc : (getStep w stepId).isSource = true
  · simp only [hsrc, if_true]
    unfold topLevelGraph
    cases htg : tryGetChild (newNode s (getStep w stepId).name
        (some (.step stepId false))).2 0 ("Source") with
    | some r => simp [addChild, setNode, newNode]
    | none => simp [addChild, setNode, newNode]
  · simp only [hsrc, if_false]
    simp [addChild, setNode, newNode]

theorem stepEvolve_attachFresh {w : World} {stepId parent : Nat} {s : CState}
    (hk : s.added.lookup stepId = none) :
    StepEvolve s (attachFresh w stepId parent s).2.2 := by
  simp only [attachFresh]
  have h1 : StepEvolve s (newNode s (getStep w stepId).name
      (some (.step stepId false))).2 :=
    stepEvolve_newNode_of (StepEvolve.srefl s) _ _
  by_cases hsrc : (getStep w stepId).isSource = true
  · simp only [hsrc, if_true]
    have h2 := stepEvolve_topLevel_of h1 ("Source")
    have h3 := stepEvolve_addChild_of h2
      (topLevelGraph (newNode s (getStep w stepId).name
        (some (.step stepId false))).2 ("Source")).1
      (le_refl s.g.length)
    exact stepEvolve_memo_of h3 hk
  · simp only [hsrc, if_false]
    have h3 := stepEvolve_addChild_of h1 parent (le_refl s.g.length)
    exact stepEvolve_memo_of h3 hk

/-! ### StepEvolve holds across addAndRecurse / addDeps -/

theorem run_stepEvolve (w : World) : ∀ fuel : Nat,
    (∀ stepId parent s n s',
      addAndRecurse w fuel stepId parent s = .ok (n, s') → StepEvolve s s') ∧
    (∀ node parent deps s s',
      addDeps w fuel node parent deps s = .ok s' → StepEvolve s s') := by
  intro fuel
  induction fuel with
  | zero =>
    constructor
    · intro stepId parent s n s' h
      rw [addAndRecurse_zero] at h
      exact absurd h (by simp)
    · intro node parent deps s s' h
      cases deps with
      | nil =>
        rw [addDeps_nil] at h
        cases h
        exact StepEvolve.srefl s
      | cons d rest =>
        rw [addDeps_cons, addAndRecurse_zero] at h
        exact absurd h (by simp)
  | succ fuel ih =>
    have hA : ∀ stepId parent s n s',
        addAndRecurse w (fuel + 1) stepId parent s = .ok (n, s') → StepEvolve s s' := by
      intro stepId parent s n s' h
      rw [addAndRecurse_succ] at h
      cases hl : s.added.lookup stepId with
      | some prev =>
        simp only [hl] at h
        obtain ⟨h1, h2⟩ := by simpa using h
        subst h2
        exact StepEvolve.srefl s
      | none =>
        simp only [hl] at h
        cases hd : addDeps w fuel (attachFresh w stepId parent s).1
            (attachFresh w stepId parent s).2.1
            (getStep w stepId).dependencySteps (attachFresh w stepId parent s).2.2 with
        | error e =>
          simp only [hd] at h
          simp at h
        | ok s5 =>
          simp only [hd] at h
          obtain ⟨h1, h2⟩ := by simpa using h
          subst h2
          exact (stepEvolve_attachFresh hl).strans (ih.2 _ _ _ _ _ hd)
    refine ⟨hA, ?_⟩
    intro node parent deps
    induction deps with
    | nil =>
      intro s s' h
      rw [addDeps_nil] at h
      cases h
      exact StepEvolve.srefl s
    | cons d rest ihd =>
      intro s s' h
      rw [addDeps_cons] at h
      cases ha : addAndRecurse w (fuel + 1) d parent s with
      | error e =>
        simp only [ha] at h
        simp at h
      | ok p =>
        obtain ⟨pn, s1⟩ := p
        simp only [ha] at h
        have e1 := hA d parent s pn s1 ha
        have e2 := stepEvolve_dependOn_of e1 node pn
        exact e2.strans (ihd _ _ h)

theorem addAndRecurse_stepEvolve {w : World} {fuel stepId parent : Nat} {s : CState}
    {n : Nat} {s' : CState} (h : addAndRecurse w fuel stepId parent s = .ok (n, s')) :
    StepEvolve s s' := (run_stepEvolve w fuel).1 _ _ _ _ _ h

theorem addDeps_stepEvolve {w : World} {fuel node parent : Nat} {deps : List Nat}
    {s s' : CState} (h : addDeps w fuel node parent deps s = .ok s') :
    StepEvolve s s' := (run_stepEvolve w fuel).2 _ _ _ _ _ h

/-! ### Errors of the recursive pair are only fuel exhaustion -/

theorem run_err (w : World) : ∀ fuel : Nat,
    (∀ stepId parent s e,
      addAndRecurse w fuel stepId parent s = .error e → e = .outOfFuel) ∧
    (∀ node parent deps s e,
      addDeps w fuel node parent deps s = .error e → e = .outOfFuel) := by
  intro fuel
  induction fuel with
  | zero =>
    constructor
    · intro stepId parent s e h
      rw [addAndRecurse_zero] at h
      simpa using h.symm
    · intro node parent deps s e h
      cases deps with
      | nil => rw [addDeps_nil] at h; exact absurd h (by simp)
      | cons d rest =>
        rw [addDeps_cons, addAndRecurse_zero] at h
        simpa using h.symm
  | succ fuel ih =>
    have hA : ∀ stepId parent s e,
        addAndRecurse w (fuel + 1) stepId parent s = .error e → e = .outOfFuel := by
      intro stepId parent s e h
      rw [addAndRecurse_succ] at h
      cases hl : s.added.lookup stepId with
      | some prev =>
        simp only [hl] at h
        simp at h
      | none =>
        simp only [hl] at h
        cases hd : addDeps w fuel (attachFresh w stepId parent s).1
            (attachFresh w stepId parent s).2.1
            (getStep w stepId).dependencySteps (attachFresh w stepId parent s).2.2 with
        | error e2 =>
          simp only [hd] at h
          obtain rfl : e2 = e := by simpa using h
          exact ih.2 _ _ _ _ _ hd
        | ok s5 =>
          simp only [hd] at h
          simp at h
    refine ⟨hA, ?_⟩
    intro node parent deps
    induction deps with
    | nil =>
      intro s e h
      rw [addDeps_nil] at h
      exact absurd h (by simp)
    | cons d rest ihd =>
      intro s e h
      rw [addDeps_cons] at h
      cases ha : addAndRecurse w (fuel + 1) d parent s with
      | error e2 =>
        simp only [ha] at h
        obtain rfl : e2 = e := by simpa using h
        exact hA _ _ _ _ ha
      | ok p =>
        obtain ⟨pn, s1⟩ := p
        simp only [ha] at h
        exact ihd _ _ h

theorem addAndRecurse_err {w : World} {fuel stepId parent : Nat} {s : CState} {e : CErr}
    (h : addAndRecurse w fuel stepId parent s = .error e) : e = .outOfFuel :=
  (run_err w fuel).1 _ _ _ _ h

/-! ### The memo after a successful call maps the Step to the result -/

theorem lookup_cons_self {k v : Nat} (l : List (Nat × Nat)) :
    List.lookup k ((k, v) :: l) = some v := by
  rw [List.lookup_cons]
  simp

theorem addAndRecurse_memo {w : World} {fuel stepId parent : Nat} {s : CState}
    {n : Nat} {s' : CState}
    (h : addAndRecurse w (fuel + 1) stepId parent s = .ok (n, s')) :
    s'.added.lookup stepId = some n := by
  rw [addAndRecurse_succ] at h
  cases hl : s.added.lookup stepId with
  | some prev =>
    simp only [hl] at h
    obtain ⟨h1, h2⟩ := by simpa using h
    subst h2
    rw [hl, h1]
  | none =>
    simp only [hl] at h
    cases hd : addDeps w fuel (attachFresh w stepId parent s).1
        (attachFresh w stepId parent s).2.1
        (getStep w stepId).dependencySteps (attachFresh w stepId parent s).2.2 with
    | error e =>
      simp only [hd] at h
      simp at h
    | ok s5 =>
      simp only [hd] at h
      obtain ⟨h1, h2⟩ := by simpa using h
      subst h2
      have hmemo : (attachFresh w stepId parent s).2.2.added.lookup stepId
          = some (attachFresh w stepId parent s).1 := by
        rw [attachFresh_added, attachFresh_fst]
        exact lookup_cons_self _
      have := (addDeps_stepEvolve hd).ev.added_mono _ _ hmemo
      rw [← h1]
      exact this

/-! ### Termination: enough fuel never runs out

The memo is registered before recursing, so the number of distinct
Steps bounds the recursion depth.  `MemoBound` says the memo keys are
distinct valid Step indices; fuel exceeding the number of not-yet-memoized
Steps guarantees success. -/

/-- Every Step's declared dependency Steps are valid indices. -/
def WFWorld (w : World) : Prop :=
  ∀ st ∈ w.steps, ∀ d ∈ st.dependencySteps, d < w.steps.length

/-- The memo keys are distinct valid Step indices. -/
def MemoBound (w : World) (s : CState) : Prop :=
  (s.added.map Prod.fst).Nodup ∧ ∀ k ∈ s.added.map Prod.fst, k < w.steps.length

theorem lookup_none_not_mem {l : List (Nat × Nat)} {k : Nat}
    (h : l.lookup k = none) : k ∉ l.map Prod.fst := by
  induction l with
  | nil => simp
  | cons p rest ih =>
    rw [List.lookup_cons] at h
    cases hbe : (k == p.1) with
    | true =>
      simp only [hbe] at h
      exact absurd h (by simp)
    | false =>
      simp only [hbe] at h
      simp only [List.map_cons, List.mem_cons]
      rintro (hk | hk)
      · rw [hk] at hbe
        simp at hbe
      · exact ih h hk

theorem memoBound_le {w : World} {s : CState} (h : MemoBound w s) :
    s.added.length ≤ w.steps.length := by
  have hlen : (s.added.map Prod.fst).length = s.added.length := List.length_map _ _
  have hsub : (s.added.map Prod.fst).toFinset ⊆ Finset.range w.steps.length := by
    intro x hx
    rw [List.mem_toFinset] at hx
    rw [Finset.mem_range]
    exact h.2 x hx
  have hcard := Finset.card_le_card hsub
  rw [Finset.card_range, List.toFinset_card_of_nodup h.1] at hcard
  rw [← hlen]
  exact hcard

theorem getStep_mem {w : World} {i : Nat} (h : i < w.steps.length) :
    getStep w i ∈ w.steps := by
  rw [getStep, List.getD_eq_getElem?_getD, List.getElem?_eq_getElem h]
  exact List.getElem_mem _

theorem attachFresh_memoBound {w : World} {stepId parent : Nat} {s : CState}
    (hw : MemoBound w s) (hstep : stepId < w.steps.length)
    (hl : s.added.lookup stepId = none) :
    MemoBound w (attachFresh w stepId parent s).2.2 ∧
    (attachFresh w stepId parent s).2.2.added.length = s.added.length + 1 := by
  refine ⟨⟨?_, ?_⟩, by rw [attachFresh_added]; simp⟩
  · rw [attachFresh_added]
    simp only [List.map_cons]
    exact List.Nodup.cons (lookup_none_not_mem hl) hw.1
  · rw [attachFresh_added]
    simp only [List.map_cons, List.mem_cons]
    rintro k (hk | hk)
    · rw [hk]; exact hstep
    · exact hw.2 k hk

theorem run_total (w : World) (hwf : WFWorld w) : ∀ fuel : Nat,
    (∀ stepId parent s, stepId < w.steps.length → MemoBound w s →
      w.steps.length + 1 ≤ fuel + s.added.length →
      ∃ n s', addAndRecurse w fuel stepId parent s = .ok (n, s') ∧
        MemoBound w s' ∧ s.added.length ≤ s'.added.length) ∧
    (∀ node parent deps s, (∀ d ∈ deps, d < w.steps.length) → MemoBound w s →
      w.steps.length + 1 ≤ fuel + s.added.length →
      ∃ s', addDeps w fuel node parent deps s = .ok s' ∧
        MemoBound w s' ∧ s.added.length ≤ s'.added.length) := by
  intro fuel
  induction fuel with
  | zero =>
    have hA : ∀ stepId parent s, stepId < w.steps.length → MemoBound w s →
        w.steps.length + 1 ≤ 0 + s.added.length →
        ∃ n s', addAndRecurse w 0 stepId parent s = .ok (n, s') ∧
          MemoBound w s' ∧ s.added.length ≤ s'.added.length := by
      intro stepId parent s _ hm hf
      have := memoBound_le hm
      omega
    refine ⟨hA, ?_⟩
    intro node parent deps s hd hm hf
    have := memoBound_le hm
    omega
  | succ fuel ih =>
    have hA : ∀ stepId parent s, stepId < w.steps.length → MemoBound w s →
        w.steps.length + 1 ≤ (fuel + 1) + s.added.length →
        ∃ n s', addAndRecurse w (fuel + 1) stepId parent s = .ok (n, s') ∧
          MemoBound w s' ∧ s.added.length ≤ s'.added.length := by
      intro stepId parent s hstep hm hf
      cases hl : s.added.lookup stepId with
      | some prev =>
        refine ⟨prev, s, ?_, hm, le_refl _⟩
        rw [addAndRecurse_succ]
        simp only [hl]
      | none =>
        obtain ⟨hm4, hlen4⟩ := attachFresh_memoBound hm hstep hl
        have hdeps : ∀ d ∈ (getStep w stepId).dependencySteps, d < w.steps.length :=
          hwf (getStep w stepId) (getStep_mem hstep)
        have hf4 : w.steps.length + 1 ≤ fuel + (attachFresh w stepId parent s).2.2.added.length := by
          rw [hlen4]; omega
        obtain ⟨s5, heq, hm5, hle5⟩ :=
          ih.2 (attachFresh w stepId parent s).1 (attachFresh w stepId parent s).2.1
            (getStep w stepId).dependencySteps (attachFresh w stepId parent s).2.2
            hdeps hm4 hf4
        refine ⟨(attachFresh w stepId parent s).1, s5, ?_, hm5, ?_⟩
        · rw [addAndRecurse_succ]
          simp only [hl, heq]
        · rw [hlen4] at hle5
          omega
    refine ⟨hA, ?_⟩
    intro node parent deps
    induction deps with
    | nil =>
      intro s hd hm hf
      exact ⟨s, addDeps_nil w _ _ _ s, hm, le_refl _⟩
    | cons d rest ihd =>
      intro s hd hm hf
      obtain ⟨pn, s1, heqA, hm1, hle1⟩ :=
        hA d parent s (hd d (by simp)) hm hf
      have hm2 : MemoBound w (dependOn s1 node pn) := by
        refine ⟨?_, ?_⟩
        · simpa [dependOn, setNode] using hm1.1
        · simpa [dependOn, setNode] using hm1.2
      have hf2 : w.steps.length + 1 ≤ (fuel + 1) + (dependOn s1 node pn).added.length := by
        have : (dependOn s1 node pn).added.length = s1.added.length := by
          simp [dependOn, setNode]
        omega
      obtain ⟨s', heqD, hm', hle'⟩ :=
        ihd (dependOn s1 node pn) (fun x hx => hd x (by simp [hx])) hm2 hf2
      refine ⟨s', ?_, hm', ?_⟩
      · rw [addDeps_cons]
        simp only [heqA, heqD]
      · have : (dependOn s1 node pn).added.length = s1.added.length := by
          simp [dependOn, setNode]
        omega

/-! ### Claim C2: idempotent step placement -/

/-- C2: Step addition is idempotent.  After a successful call has
returned node `n` in state `s'`, calling `addAndRecurse` again for the
same Step — with any fuel and any parent (the parent of a repeat call is
ignored) — returns exactly `(n, s')`: the same node, no new node, no
state change at all. -/
theorem addAndRecurse_idempotent (w : World) (fuel1 fuel2 stepId p1 p2 : Nat)
    (s : CState) (n : Nat) (s' : CState)
    (h : addAndRecurse w (fuel1 + 1) stepId p1 s = .ok (n, s')) :
    addAndRecurse w (fuel2 + 1) stepId p2 s' = .ok (n, s') := by
  have hm := addAndRecurse_memo h
  rw [addAndRecurse_succ]
  simp only [hm]

/-- The world used for concrete witnesses: one Step, "S0", that depends
on itself (a dependency cycle, exercising the memo short-circuit). -/
def wEx : World := ⟨[⟨("S0"), [0], none, false⟩], []⟩

/-- The state after adding Step 0 of `wEx` under the root. -/
def sEx : CState :=
  { g := [⟨"", some .group, [1], []⟩, ⟨("S0"), some (.step 0 false), [], [1]⟩]
    added := [(0, 1)]
    assetNodes := []
    lastPreparationNode := 0
    cloudAssemblyFileSet := ⟨0⟩
    fileAssetCtr := 0
    dockerAssetCtr := 0 }

/-- Witness for C2 at a concrete input: the first call places Step 0 at
node 1; the repeat call with different fuel and a different parent
returns the identical node and state. -/
theorem addAndRecurse_idempotent_witness :
    addAndRecurse wEx 3 0 5 sEx = .ok (1, sEx) :=
  addAndRecurse_idempotent wEx 1 2 0 0 5 initState 1 sEx (by rfl)

/-! ### Claim C8: termination despite dependency cycles -/

/-- C8: the step-addition procedure terminates for every finite Step
store, even a cyclic one: with the memo registered before recursion,
fuel exceeding the number of distinct not-yet-memoized Steps suffices,
so the call never exhausts fuel and returns successfully. -/
theorem addAndRecurse_terminates (w : World) (fuel stepId parent : Nat) (s : CState)
    (hwf : WFWorld w) (hstep : stepId < w.steps.length) (hm : MemoBound w s)
    (hf : w.steps.length + 1 ≤ fuel + s.added.length) :
    ∃ n s', addAndRecurse w fuel stepId parent s = .ok (n, s') := by
  obtain ⟨n, s', h, _, _⟩ := (run_total w hwf fuel).1 stepId parent s hstep hm hf
  exact ⟨n, s', h⟩

/-- Witness for C8 at a concrete input: the self-dependent Step of `wEx`
(a dependency cycle) is added successfully with fuel `2 = |Steps| + 1`. -/
theorem addAndRecurse_terminates_witness :
    ∃ n s', addAndRecurse wEx 2 0 0 initState = .ok (n, s') :=
  addAndRecurse_terminates wEx 2 0 0 initState
    (by intro st hst d hd; simp [wEx] at hst; subst hst; simp_all [wEx])
    (by simp [wEx]) (by constructor <;> simp [initState]) (by simp [wEx, initState])

/-! ### Claim C1: the asset-dedup bug -/

/-- C1 (counterexample evaluation): publishing the same `assetId` twice
with different selectors.  The memo-hit branch appends the second
selector to the first node's asset list, but — lacking a return — falls
through and creates a second publish node anyway: the two calls return
distinct nodes 2 and 3, the file-asset counter advances to 2, the
"Assets" group (node 1) holds two publish nodes, and the memo now maps
"A" to the new node 3 whose asset list carries only the second selector. -/
theorem publishAsset_duplicate_assetId_two_nodes :
    (do
      let r1 ← publishAsset initState ⟨("A"), ("s1"), .file⟩
      let r2 ← publishAsset r1.2 ⟨("A"), ("s2"), .file⟩
      Except.ok (r1.1, r2.1, r2.2.fileAssetCtr, (getNode r2.2 1).children,
        r2.2.assetNodes.lookup ("A"), (getNode r2.2 2).ann, (getNode r2.2 3).ann)
      : Except CErr _) =
    .ok (2, 3, 2, [2, 3], some 3,
      some (.publishAssets [⟨("A"), ("s1"), .file⟩, ⟨("A"), ("s2"), .file⟩]),
      some (.publishAssets [⟨("A"), ("s2"), .file⟩])) := by rfl

/-! ### Claim C3: source steps are placed in the "Source" group -/

/-- Children lists only reference allocated nodes. -/
def NodesClosed (s : CState) : Prop :=
  ∀ i, ∀ c ∈ (getNode s i).children, c < s.g.length

/-- Executable check for `NodesClosed`. -/
def nodesClosedB (s : CState) : Bool :=
  s.g.all (fun nd => nd.children.all (fun c => decide (c < s.g.length)))

theorem nodesClosed_of_b {s : CState} (h : nodesClosedB s = true) : NodesClosed s := by
  intro i c hc
  by_cases hi : i < s.g.length
  · have hmem : getNode s i ∈ s.g := by
      rw [getNode, List.getD_eq_getElem?_getD, List.getElem?_eq_getElem hi]
      exact List.getElem_mem _
    have h1 := (List.all_eq_true.mp h) _ hmem
    have h2 := (List.all_eq_true.mp h1) _ hc
    exact of_decide_eq_true h2
  · rw [getNode_ge s i (le_of_not_lt hi)] at hc
    simp [default] at hc

theorem find?_congr_list {α} {p q : α → Bool} :
    ∀ l : List α, (∀ x ∈ l, p x = q x) → l.find? p = l.find? q := by
  intro l h
  induction l with
  | nil => rfl
  | cons a as ih =>
    rw [List.find?_cons, List.find?_cons, h a (List.mem_cons_self a as)]
    cases hq : q a with
    | true => rfl
    | false => exact ih (fun x hx => h x (List.mem_cons_of_mem a hx))

/-- A successful direct-child lookup survives any `StepEvolve` whose
origin has closed root children: children are only appended and the old
children keep their names. -/
theorem tryGetChild_stepEvolve {s s' : CState} (hse : StepEvolve s s')
    (hroot : ∀ c ∈ (getNode s 0).children, c < s.g.length)
    {nm : String} {r : Nat} (h : tryGetChild s 0 nm = some r) :
    tryGetChild s' 0 nm = some r := by
  unfold tryGetChild at h ⊢
  obtain ⟨t, ht⟩ := hse.ev.children_ext 0
  rw [ht, List.find?_append]
  have hcongr : (getNode s 0).children.find? (fun c => (getNode s' c).name == nm)
      = (getNode s 0).children.find? (fun c => (getNode s c).name == nm) :=
    find?_congr_list _ (fun c hc => by rw [hse.ev.name_eq c (hroot c hc)])
  rw [hcongr, h]
  rfl

/-- What `topLevelGraph` guarantees: the returned node is the root's
child of that name; children lists change at most by attaching the
(fresh) group to the root; the store grows by at most one; closedness is
preserved; and every node other than the root and the fresh slot is
untouched. -/
theorem topLevelGraph_spec (s : CState) (nm : String) (hnc : NodesClosed s) :
    tryGetChild (topLevelGraph s nm).2 0 nm = some (topLevelGraph s nm).1 ∧
    (∀ q i, i ∈ (getNode (topLevelGraph s nm).2 q).children →
      i ∈ (getNode s q).children ∨ i = (topLevelGraph s nm).1) ∧
    s.g.length ≤ (topLevelGraph s nm).2.g.length ∧
    (topLevelGraph s nm).2.g.length ≤ s.g.length + 1 ∧
    NodesClosed (topLevelGraph s nm).2 ∧
    (∀ i, i ≠ 0 → i < s.g.length → getNode (topLevelGraph s nm).2 i = getNode s i) ∧
    ((topLevelGraph s nm).1 ∈ (getNode s 0).children ∨ (topLevelGraph s nm).1 = s.g.length) := by
  cases hts : tryGetChild s 0 nm with
  | some r =>
    have heq : topLevelGraph s nm = (r, s) := by
      unfold topLevelGraph
      rw [hts]
    rw [heq]
    refine ⟨hts, fun q i hi => Or.inl hi, le_refl _, Nat.le_succ _, hnc, fun i _ _ => rfl, ?_⟩
    exact Or.inl (List.mem_of_find?_eq_some hts)
  | none =>
    have heq : topLevelGraph s nm =
        (s.g.length, addChild (newNode s nm none).2 0 s.g.length) := by
      unfold topLevelGraph
      rw [hts]
      rfl
    rw [heq]
    clear heq
    by_cases h0 : (0 : Nat) < s.g.length
    · have hch0 : (getNode (addChild (newNode s nm none).2 0 s.g.length) 0).children
          = (getNode s 0).children ++ [s.g.length] := by
        rw [getNode_addChild_self _ _ _ (by rw [length_newNode]; omega),
          getNode_newNode_lt _ _ _ _ h0]
      have hchq : ∀ q, q ≠ 0 →
          (getNode (addChild (newNode s nm none).2 0 s.g.length) q).children
            = (getNode (newNode s nm none).2 q).children := by
        intro q hq
        rw [getNode_addChild_ne _ _ _ _ (fun hh => hq hh.symm)]
      refine ⟨?_, ?_, ?_, ?_, ?_, ?_, Or.inr rfl⟩
      · unfold tryGetChild
        rw [hch0, List.find?_append]
        have hnone : (getNode s 0).children.find?
            (fun c => (getNode (addChild (newNode s nm none).2 0 s.g.length) c).name == nm)
              = none := by
          rw [find?_congr_list _ (fun c hc => ?_)]
          · exact hts
          · have hc' := hnc 0 c hc
            by_cases hc0 : c = 0
            · subst hc0
              rw [getNode_addChild_self _ _ _ (by rw [length_newNode]; omega),
                getNode_newNode_lt _ _ _ _ h0]
            · rw [getNode_addChild_ne _ _ _ _ (fun hh => hc0 hh.symm),
                getNode_newNode_lt _ _ _ _ hc']
        rw [hnone]
        have hself : (getNode (addChild (newNode s nm none).2 0 s.g.length)
            s.g.length).name = nm := by
          rw [getNode_addChild_ne (newNode s nm none).2 0 s.g.length s.g.length
              (fun hh => by omega), getNode_newNode_self]
        simp [List.find?_cons, hself]
      · intro q i hi
        by_cases hq : q = 0
        · subst hq
          rw [hch0] at hi
          rcases List.mem_append.mp hi with hi | hi
          · exact Or.inl hi
          · simp at hi
            exact Or.inr hi
        · rw [hchq q hq] at hi
          rcases Nat.lt_trichotomy q s.g.length with hlt | hlt | hlt
          · rw [getNode_newNode_lt _ _ _ _ hlt] at hi
            exact Or.inl hi
          · subst hlt
            rw [getNode_newNode_self] at hi
            simp at hi
          · rw [getNode_newNode_gt _ _ _ _ hlt] at hi
            simp [default] at hi
      · rw [length_addChild, length_newNode]
        omega
      · rw [length_addChild, length_newNode]
      · intro q i hi
        rw [length_addChild, length_newNode]
        by_cases hq : q = 0
        · subst hq
          rw [hch0] at hi
          rcases List.mem_append.mp hi with hi | hi
          · have := hnc 0 i hi
            omega
          · simp at hi
            omega
        · rw [hchq q hq] at hi
          rcases Nat.lt_trichotomy q s.g.length with hlt | hlt | hlt
          · rw [getNode_newNode_lt _ _ _ _ hlt] at hi
            have := hnc q i hi
            omega
          · subst hlt
            rw [getNode_newNode_self] at hi
            simp at hi
          · rw [getNode_newNode_gt _ _ _ _ hlt] at hi
            simp [default] at hi
      · intro i hi0 hilt
        rw [getNode_addChild_ne _ _ _ _ (fun hh => hi0 hh.symm),
          getNode_newNode_lt _ _ _ _ hilt]
    · have hgnil : s.g = [] := List.length_eq_zero.mp (by omega)
      refine ⟨?_, ?_, ?_, ?_, ?_, ?_, Or.inr rfl⟩
      · simp [tryGetChild, getNode, addChild, setNode, newNode, hgnil]
      · intro q i hi
        simp [getNode, addChild, setNode, newNode, hgnil] at hi
        cases q with
        | zero =>
          simp at hi
          right
          simp [hgnil, hi]
        | succ q2 =>
          simp [default] at hi
      · simp [addChild, setNode, newNode, hgnil]
      · simp [addChild, setNode, newNode, hgnil]
      · intro q i hi
        simp [getNode, addChild, setNode, newNode, hgnil] at hi
        cases q with
        | zero =>
          simp at hi
          simp [addChild, setNode, newNode, hgnil, hi]
        | succ q2 =>
          simp [default] at hi
      · intro i hi0 hilt
        rw [hgnil] at hilt
        simp at hilt

theorem nodesClosed_newNode {s : CState} (hnc : NodesClosed s)
    (nm : String) (an : Option GraphAnn) : NodesClosed (newNode s nm an).2 := by
  intro i c hc
  rw [length_newNode]
  rcases Nat.lt_trichotomy i s.g.length with hi | hi | hi
  · rw [getNode_newNode_lt _ _ _ _ hi] at hc
    have := hnc i c hc
    omega
  · subst hi
    rw [getNode_newNode_self] at hc
    simp at hc
  · rw [getNode_newNode_gt _ _ _ _ hi] at hc
    simp [default] at hc

theorem name_addChild (s : CState) (p c j : Nat) :
    (getNode (addChild s p c) j).name = (getNode s j).name := by
  by_cases hp : p < s.g.length
  · by_cases hpj : p = j
    · subst hpj
      rw [getNode_addChild_self _ _ _ hp]
    · rw [getNode_addChild_ne _ _ _ _ hpj]
  · rw [getNode_addChild_ge _ _ _ (le_of_not_lt hp)]

theorem children_addChild_ne (s : CState) (p c j : Nat) (h : p ≠ j) :
    (getNode (addChild s p c) j).children = (getNode s j).children := by
  rw [getNode_addChild_ne _ _ _ _ h]

theorem tryGetChild_mem {s : CState} {p : Nat} {nm : String} {r : Nat}
    (h : tryGetChild s p nm = some r) : r ∈ (getNode s p).children :=
  List.mem_of_find?_eq_some h

/-- The memo write does not affect the node store. -/
theorem getNode_memoUpd (s : CState) (x : List (Nat × Nat)) (i : Nat) :
    getNode { s with added := x } i = getNode s i := rfl

/-- Shape of `attachFresh` for a source-type Step: the node id, the
effective parent (the "Source" group) and the state. -/
theorem attachFresh_eq_source (w : World) (stepId parent : Nat) (s : CState)
    (hsrc : (getStep w stepId).isSource = true) :
    attachFresh w stepId parent s =
      (s.g.length,
       (topLevelGraph (newNode s (getStep w stepId).name
          (some (.step stepId false))).2 ("Source")).1,
       { addChild
           (topLevelGraph (newNode s (getStep w stepId).name
              (some (.step stepId false))).2 ("Source")).2
           (topLevelGraph (newNode s (getStep w stepId).name
              (some (.step stepId false))).2 ("Source")).1
           s.g.length with
         added := (stepId, s.g.length) ::
           (addChild
             (topLevelGraph (newNode s (getStep w stepId).name
                (some (.step stepId false))).2 ("Source")).2
             (topLevelGraph (newNode s (getStep w stepId).name
                (some (.step stepId false))).2 ("Source")).1
             s.g.length).added }) := by
  simp only [attachFresh]
  rw [if_pos hsrc]
  rfl

/-- The placement facts for a freshly attached source-type Step: the
node (id `s.g.length`) is a child of the "Source" top-level group and of
no other node; the store stays closed and grows. -/
theorem attachFresh_source_spec (w : World) (stepId parent : Nat) (s : CState)
    (hsrc : (getStep w stepId).isSource = true) (hnc : NodesClosed s) :
    ∃ src, tryGetChild (attachFresh w stepId parent s).2.2 0 ("Source") = some src ∧
      s.g.length ∈ (getNode (attachFresh w stepId parent s).2.2 src).children ∧
      (∀ q, q ≠ src → s.g.length ∉ (getNode (attachFresh w stepId parent s).2.2 q).children) ∧
      NodesClosed (attachFresh w stepId parent s).2.2 ∧
      s.g.length + 1 ≤ (attachFresh w stepId parent s).2.2.g.length := by
  rw [attachFresh_eq_source w stepId parent s hsrc]
  have hnc1 : NodesClosed (newNode s (getStep w stepId).name
      (some (.step stepId false))).2 := nodesClosed_newNode hnc _ _
  have hch_s1 : ∀ q, s.g.length ∉ (getNode (newNode s (getStep w stepId).name
      (some (.step stepId false))).2 q).children := by
    intro q hq
    rcases Nat.lt_trichotomy q s.g.length with hz | hz | hz
    · rw [getNode_newNode_lt _ _ _ _ hz] at hq
      have := hnc q _ hq
      omega
    · subst hz
      rw [getNode_newNode_self] at hq
      simp at hq
    · rw [getNode_newNode_gt _ _ _ _ hz] at hq
      simp [default] at hq
  have hlen_s1 : (newNode s (getStep w stepId).name
      (some (.step stepId false))).2.g.length = s.g.length + 1 := length_newNode _ _ _
  generalize hS1 : (newNode s (getStep w stepId).name
      (some (.step stepId false))).2 = s1 at hnc1 hch_s1 hlen_s1 ⊢
  obtain ⟨hA, hadd, hlen1, hlen2, hnc2, huntouched, hsmem⟩ :=
    topLevelGraph_spec s1 ("Source") hnc1
  generalize hsrcid : (topLevelGraph s1 ("Source")).1 = src at hA hadd hsmem ⊢
  generalize hS2 : (topLevelGraph s1 ("Source")).2 = s2 at hA hadd hlen1 hlen2 hnc2 huntouched ⊢
  have hgn : ∀ i, getNode
      { addChild s2 src s.g.length with
        added := (stepId, s.g.length) :: (addChild s2 src s.g.length).added } i
        = getNode (addChild s2 src s.g.length) i := fun i => rfl
  have hglen : ({ addChild s2 src s.g.length with
      added := (stepId, s.g.length) :: (addChild s2 src s.g.length).added } : CState).g.length
        = s2.g.length := length_addChild _ _ _
  have hsv : src < s2.g.length := hnc2 0 src (tryGetChild_mem hA)
  have hsrcne : src ≠ s.g.length := by
    rcases hsmem with hs | hs
    · intro heq
      rw [heq] at hs
      exact hch_s1 0 hs
    · omega
  refine ⟨src, ?_, ?_, ?_, ?_, ?_⟩
  · show tryGetChild _ 0 ("Source") = some src
    unfold tryGetChild
    simp only [hgn]
    have hcongr : ∀ l : List Nat, l.find?
        (fun c => (getNode (addChild s2 src s.g.length) c).name == ("Source"))
          = l.find? (fun c => (getNode s2 c).name == ("Source")) :=
      fun l => find?_congr_list _ (fun c hc => by rw [name_addChild])
    by_cases h0 : src = 0
    · subst h0
      rw [getNode_addChild_self _ _ _ hsv, List.find?_append, hcongr]
      unfold tryGetChild at hA
      rw [hA]
      rfl
    · rw [children_addChild_ne _ _ _ _ h0, hcongr]
      unfold tryGetChild at hA
      exact hA
  · rw [hgn, getNode_addChild_self _ _ _ hsv]
    simp
  · intro q hq hmem
    rw [hgn, children_addChild_ne _ _ _ _ (fun hh => hq hh.symm)] at hmem
    rcases hadd q _ hmem with hin | heq2
    · exact hch_s1 q hin
    · exact hsrcne heq2.symm
  · intro q i hi
    rw [hgn] at hi
    have hilt : i < s2.g.length := by
      by_cases hqsrc : src = q
      · subst hqsrc
        rw [getNode_addChild_self _ _ _ hsv] at hi
        rcases List.mem_append.mp hi with hi | hi
        · exact hnc2 _ _ hi
        · simp at hi
          omega
      · rw [children_addChild_ne _ _ _ _ hqsrc] at hi
        exact hnc2 _ _ hi
    rw [hglen]
    exact hilt
  · rw [hglen]
    omega

/-- C3: a not-yet-visited source-type Step is attached under the shared
top-level "Source" group — found by name under the root — and not under
the requested parent (whenever the requested parent is not itself the
Source group). -/
theorem sourceStep_placed_in_source_group (w : World) (fuel stepId parent : Nat)
    (s : CState) (n : Nat) (s' : CState)
    (hnc : NodesClosed s) (hl : s.added.lookup stepId = none)
    (hsrc : (getStep w stepId).isSource = true)
    (h : addAndRecurse w (fuel + 1) stepId parent s = .ok (n, s')) :
    ∃ src, tryGetChild s' 0 ("Source") = some src ∧
      n ∈ (getNode s' src).children ∧
      (parent ≠ src → n ∉ (getNode s' parent).children) := by
  rw [addAndRecurse_succ] at h
  simp only [hl] at h
  cases hd : addDeps w fuel (attachFresh w stepId parent s).1
      (attachFresh w stepId parent s).2.1
      (getStep w stepId).dependencySteps (attachFresh w stepId parent s).2.2 with
  | error e =>
    simp only [hd] at h
    simp at h
  | ok s5 =>
    simp only [hd] at h
    obtain ⟨h1, h2⟩ := by simpa using h
    subst h2
    obtain ⟨src, hA, hB, hC, hnc4, hlen⟩ := attachFresh_source_spec w stepId parent s hsrc hnc
    have hse := addDeps_stepEvolve hd
    have hnode : s.g.length = n := by rw [← h1, attachFresh_fst]
    refine ⟨src, ?_, ?_, ?_⟩
    · exact tryGetChild_stepEvolve hse (fun c hc => hnc4 0 c hc) hA
    · rw [← hnode]
      exact hse.ev.children_mem hB
    · intro hps hmem
      rw [← hnode] at hmem
      rcases hse.children_fresh parent s.g.length hmem with hin | hge
      · exact hC parent hps hin
      · omega

/-- Witness for C3 at a concrete input: a blueprint world with one
source-type Step ("Git"); adding it with the root (node 0) as requested
parent lands it under the "Source" group (node 2), not under the root. -/
theorem sourceStep_placed_in_source_group_witness :
    ∃ src, tryGetChild
        { g := [⟨"", some .group, [2], []⟩,
                ⟨("Git"), some (.step 0 false), [], []⟩,
                ⟨("Source"), none, [1], []⟩]
          added := [(0, 1)]
          assetNodes := []
          lastPreparationNode := 0
          cloudAssemblyFileSet := ⟨0⟩
          fileAssetCtr := 0
          dockerAssetCtr := 0 } 0 ("Source") = some src ∧
      1 ∈ (getNode
        { g := [⟨"", some .group, [2], []⟩,
                ⟨("Git"), some (.step 0 false), [], []⟩,
                ⟨("Source"), none, [1], []⟩]
          added := [(0, 1)]
          assetNodes := []
          lastPreparationNode := 0
          cloudAssemblyFileSet := ⟨0⟩
          fileAssetCtr := 0
          dockerAssetCtr := 0 } src).children ∧
      (0 ≠ src → 1 ∉ (getNode
        { g := [⟨"", some .group, [2], []⟩,
                ⟨("Git"), some (.step 0 false), [], []⟩,
                ⟨("Source"), none, [1], []⟩]
          added := [(0, 1)]
          assetNodes := []
          lastPreparationNode := 0
          cloudAssemblyFileSet := ⟨0⟩
          fileAssetCtr := 0
          dockerAssetCtr := 0 } 0).children) :=
  sourceStep_placed_in_source_group ⟨[⟨("Git"), [], none, true⟩], []⟩ 0 0 0
    initState 1 _ (nodesClosed_of_b (by rfl)) (by rfl) (by rfl) (by rfl)

/-! ### Evolves through the remaining compiler operations -/

theorem evolves_of_eq {s s' : CState} (hg : s'.g = s.g) (ha : s'.added = s.added)
    (hca : s'.cloudAssemblyFileSet = s.cloudAssemblyFileSet) : Evolves s s' := by
  have hgn : ∀ i, getNode s' i = getNode s i := by
    intro i
    rw [getNode, getNode, hg]
  refine ⟨by rw [hg], fun k v hv => by rw [ha]; exact hv,
    fun i => ⟨[], by rw [hgn]; simp⟩, fun i => ⟨[], by rw [hgn]; simp⟩,
    fun i _ => by rw [hgn], fun i as hann => ⟨as, by rw [hgn]; exact hann⟩, hca⟩

theorem evolves_newNode (s : CState) (nm : String) (an : Option GraphAnn) :
    Evolves s (newNode s nm an).2 :=
  (stepEvolve_newNode_of (StepEvolve.srefl s) nm an).ev

theorem evolves_dependOn (s : CState) (a b : Nat) : Evolves s (dependOn s a b) :=
  (stepEvolve_dependOn_of (StepEvolve.srefl s) a b).ev

theorem evolves_topLevel (s : CState) (nm : String) : Evolves s (topLevelGraph s nm).2 :=
  (stepEvolve_topLevel_of (StepEvolve.srefl s) nm).ev

theorem evolves_addChild (s : CState) (p c : Nat) : Evolves s (addChild s p c) := by
  by_cases hp : p < s.g.length
  · refine ⟨by rw [length_addChild], ?_, fun i => ?_, fun i => ?_, fun i hi => ?_,
      fun i as ha => ?_, by simp [addChild, setNode]⟩
    · intro k v hv
      simpa [addChild, setNode] using hv
    · by_cases hip : p = i
      · subst hip
        exact ⟨[c], by rw [getNode_addChild_self _ _ _ hp]⟩
      · exact ⟨[], by simp [getNode_addChild_ne _ _ _ _ hip]⟩
    · by_cases hip : p = i
      · subst hip
        refine ⟨[], ?_⟩
        rw [getNode_addChild_self _ _ _ hp]
        simp
      · exact ⟨[], by simp [getNode_addChild_ne _ _ _ _ hip]⟩
    · by_cases hip : p = i
      · subst hip
        rw [getNode_addChild_self _ _ _ hp]
      · rw [getNode_addChild_ne _ _ _ _ hip]
    · by_cases hip : p = i
      · subst hip
        rw [getNode_addChild_self _ _ _ hp]
        exact ⟨as, ha⟩
      · rw [getNode_addChild_ne _ _ _ _ hip]
        exact ⟨as, ha⟩
  · rw [getNode_addChild_ge _ _ _ (le_of_not_lt hp)]
    exact Evolves.erefl s

theorem evolves_setPublish {s : CState} {i : Nat} {as : List StackAsset}
    (hann : (getNode s i).ann = some (.publishAssets as)) (as2 : List StackAsset) :
    Evolves s (setNode s i { getNode s i with ann := some (.publishAssets as2) }) := by
  by_cases hi : i < s.g.length
  · refine ⟨by rw [length_setNode], ?_, fun j => ?_, fun j => ?_, fun j hj => ?_,
      fun j as3 ha => ?_, by simp [setNode]⟩
    · intro k v hv
      simpa [setNode] using hv
    · by_cases hij : i = j
      · subst hij
        refine ⟨[], ?_⟩
        rw [getNode_setNode_self _ _ _ hi]
        simp
      · exact ⟨[], by simp [getNode_setNode_ne _ _ _ _ hij]⟩
    · by_cases hij : i = j
      · subst hij
        refine ⟨[], ?_⟩
        rw [getNode_setNode_self _ _ _ hi]
        simp
      · exact ⟨[], by simp [getNode_setNode_ne _ _ _ _ hij]⟩
    · by_cases hij : i = j
      · subst hij
        rw [getNode_setNode_self _ _ _ hi]
      · rw [getNode_setNode_ne _ _ _ _ hij]
    · by_cases hij : i = j
      · subst hij
        rw [getNode_setNode_self _ _ _ hi]
        exact ⟨as2, rfl⟩
      · rw [getNode_setNode_ne _ _ _ _ hij]
        exact ⟨as3, ha⟩
  · refine evolves_of_eq ?_ rfl rfl
    simp [setNode, List.set_eq_of_length_le (le_of_not_lt hi)]

theorem evolves_foldl {α} (f : CState → α → CState)
    (hf : ∀ s x, Evolves s (f s x)) : ∀ (l : List α) (s : CState), Evolves s (l.foldl f s) := by
  intro l
  induction l with
  | nil => exact fun s => Evolves.erefl s
  | cons a as ih =>
    intro s
    rw [List.foldl_cons]
    exact (hf s a).etrans (ih (f s a))

theorem evolves_fctr (s : CState) (x : Nat) : Evolves s { s with fileAssetCtr := x } :=
  evolves_of_eq rfl rfl rfl

theorem evolves_dctr (s : CState) (x : Nat) : Evolves s { s with dockerAssetCtr := x } :=
  evolves_of_eq rfl rfl rfl

theorem evolves_assetMemo (s : CState) (x : List (String × Nat)) :
    Evolves s { s with assetNodes := x } := evolves_of_eq rfl rfl rfl

theorem evolves_mkNewAssetNode (s : CState) (a : StackAsset) (ag : Nat) :
    Evolves s (mkNewAssetNode s a ag).2 := by
  cases hat : a.assetType with
  | file =>
    simp only [mkNewAssetNode, hat]
    exact (evolves_fctr s _).etrans ((evolves_newNode _ _ _).etrans
      ((evolves_assetMemo _ _).etrans ((evolves_addChild _ _ _).etrans (evolves_dependOn _ _ _))))
  | dockerImage =>
    simp only [mkNewAssetNode, hat]
    exact (evolves_dctr s _).etrans ((evolves_newNode _ _ _).etrans
      ((evolves_assetMemo _ _).etrans ((evolves_addChild _ _ _).etrans (evolves_dependOn _ _ _))))

theorem publishAsset_evolves {s : CState} {a : StackAsset} {n : Nat} {s' : CState}
    (h : publishAsset s a = .ok (n, s')) : Evolves s s' := by
  unfold publishAsset at h
  cases hl : ((topLevelGraph s ("Assets")).2).assetNodes.lookup a.assetId with
  | none =>
    simp only [hl] at h
    have h2 : (mkNewAssetNode (topLevelGraph s ("Assets")).2 a
        (topLevelGraph s ("Assets")).1).2 = s' := by
      have h12 : mkNewAssetNode (topLevelGraph s ("Assets")).2 a
          (topLevelGraph s ("Assets")).1 = (n, s') := by simpa using h
      rw [h12]
    rw [← h2]
    exact (evolves_topLevel s ("Assets")).etrans (evolves_mkNewAssetNode _ _ _)
  | some assetNode =>
    simp only [hl] at h
    cases hann : (getNode (topLevelGraph s ("Assets")).2 assetNode).ann with
    | none =>
      simp only [hann] at h
      simp at h
    | some g =>
      cases g with
      | publishAssets as =>
        simp only [hann] at h
        by_cases hdup : as.any (fun x => x.assetSelector == a.assetSelector)
        · rw [if_pos hdup] at h
          have h2 : (mkNewAssetNode (topLevelGraph s ("Assets")).2 a
              (topLevelGraph s ("Assets")).1).2 = s' := by
            have h12 : mkNewAssetNode (topLevelGraph s ("Assets")).2 a
                (topLevelGraph s ("Assets")).1 = (n, s') := by simpa using h
            rw [h12]
          rw [← h2]
          exact (evolves_topLevel s ("Assets")).etrans (evolves_mkNewAssetNode _ _ _)
        · rw [if_neg hdup] at h
          have h2 : (mkNewAssetNode
              (setNode (topLevelGraph s ("Assets")).2 assetNode
                { getNode (topLevelGraph s ("Assets")).2 assetNode with
                  ann := some (.publishAssets (as ++ [a])) }) a
              (topLevelGraph s ("Assets")).1).2 = s' := by
            have h12 : mkNewAssetNode
                (setNode (topLevelGraph s ("Assets")).2 assetNode
                  { getNode (topLevelGraph s ("Assets")).2 assetNode with
                    ann := some (.publishAssets (as ++ [a])) }) a
                (topLevelGraph s ("Assets")).1 = (n, s') := by simpa using h
            rw [h12]
          rw [← h2]
          exact (evolves_topLevel s ("Assets")).etrans
            ((evolves_setPublish hann _).etrans (evolves_mkNewAssetNode _ _ _))
      | group =>
        simp only [hann] at h
        simp at h
      | stackGroup st =>
        simp only [hann] at h
        simp at h
      | step st b =>
        simp only [hann] at h
        simp at h
      | selfUpdate =>
        simp only [hann] at h
        simp at h
      | prepare st =>
        simp only [hann] at h
        simp at h
      | execute st =>
        simp only [hann] at h
        simp at h

theorem pubAssets_evolves {prep : Nat} : ∀ {l : List StackAsset} {s s' : CState},
    pubAssets prep l s = .ok s' → Evolves s s' := by
  intro l
  induction l with
  | nil =>
    intro s s' h
    simp only [pubAssets] at h
    obtain rfl : s = s' := by simpa using h
    exact Evolves.erefl s
  | cons a rest ih =>
    intro s s' h
    simp only [pubAssets] at h
    cases hp : publishAsset s a with
    | error e =>
      rw [hp] at h
      simp at h
    | ok p =>
      obtain ⟨an, s1⟩ := p
      rw [hp] at h
      exact (publishAsset_evolves hp).etrans ((evolves_dependOn s1 prep an).etrans (ih h))

theorem stackPairBase_evolves (w : World) (stId : Nat) (s : CState) :
    Evolves s (stackPairBase w stId s).2.2 := by
  simp only [stackPairBase]
  exact (evolves_newNode _ _ _).etrans ((evolves_newNode _ _ _).etrans
    ((evolves_newNode _ _ _).etrans ((evolves_addChild _ _ _).etrans
      ((evolves_addChild _ _ _).etrans (evolves_dependOn _ _ _)))))

theorem stackPairBase_len (w : World) (stId : Nat) (s : CState) :
    (stackPairBase w stId s).2.2.g.length = s.g.length + 3 := by
  simp only [stackPairBase]
  rw [length_dependOn, length_addChild, length_addChild,
    length_newNode, length_newNode, length_newNode]

theorem stackPairBase_fst (w : World) (stId : Nat) (s : CState) :
    (stackPairBase w stId s).1 = s.g.length := rfl

theorem addStackPair_ok {w : World} {fuel rg stId : Nat} {s : CState} {g : Nat}
    {s' : CState} (h : addStackPair w fuel rg stId s = .ok (g, s')) :
    Evolves s s' ∧ g = s.g.length ∧ s.g.length < s'.g.length := by
  unfold addStackPair at h
  cases haar : addAndRecurse w fuel
      ((getStack w stId).customCloudAssembly.getD
        (stackPairBase w stId s).2.2.cloudAssemblyFileSet).producer rg
      (stackPairBase w stId s).2.2 with
  | error e =>
    simp only [haar] at h
    simp at h
  | ok p =>
    obtain ⟨prod, s6⟩ := p
    simp only [haar] at h
    cases hpa : pubAssets (stackPairBase w stId s).2.1
        (getStack w stId).requiredAssets (dependOn s6 (stackPairBase w stId s).2.1 prod) with
    | error e =>
      rw [hpa] at h
      simp at h
    | ok s8 =>
      rw [hpa] at h
      obtain ⟨h1, h2⟩ := by simpa using h
      subst h2
      have hev : Evolves s s8 :=
        (stackPairBase_evolves w stId s).etrans
          ((addAndRecurse_stepEvolve haar).ev.etrans
            ((evolves_dependOn s6 (stackPairBase w stId s).2.1 prod).etrans
              (pubAssets_evolves hpa)))
      refine ⟨hev, by rw [← h1, stackPairBase_fst], ?_⟩
      have hl1 : (stackPairBase w stId s).2.2.g.length = s.g.length + 3 :=
        stackPairBase_len w stId s
      have hl2 := (addAndRecurse_stepEvolve haar).ev.len_le
      have hl3 := (pubAssets_evolves hpa).len_le
      rw [length_dependOn] at hl3
      omega

theorem addStacks_ok {w : World} {fuel rg : Nat} : ∀ {l : List Nat}
    {acc : List (Nat × Nat)} {s : CState} {sgs : List (Nat × Nat)} {s' : CState},
    addStacks w fuel rg l acc s = .ok (sgs, s') →
    Evolves s s' ∧
    (∀ p ∈ sgs, p ∈ acc ∨ p.2 < s'.g.length) := by
  intro l
  induction l with
  | nil =>
    intro acc s sgs s' h
    simp only [addStacks] at h
    obtain ⟨h1, h2⟩ := by simpa using h
    subst h1
    subst h2
    exact ⟨Evolves.erefl s, fun p hp => Or.inl hp⟩
  | cons stId rest ih =>
    intro acc s sgs s' h
    simp only [addStacks] at h
    cases hsp : addStackPair w fuel rg stId s with
    | error e =>
      rw [hsp] at h
      simp at h
    | ok p =>
      obtain ⟨sg, s1⟩ := p
      rw [hsp] at h
      obtain ⟨hev1, hfst, hlt⟩ := addStackPair_ok hsp
      obtain ⟨hev2, hmem⟩ := ih h
      refine ⟨hev1.etrans hev2, fun q hq => ?_⟩
      rcases hmem q hq with hq2 | hq2
      · rcases List.mem_cons.mp hq2 with hq3 | hq3
        · subst hq3
          right
          have := hev2.len_le
          omega
        · exact Or.inl hq3
      · exact Or.inr hq2

theorem foldl_len_pres {α} (f : CState → α → CState)
    (hf : ∀ s x, (f s x).g.length = s.g.length) :
    ∀ (l : List α) (s : CState), (l.foldl f s).g.length = s.g.length := by
  intro l
  induction l with
  | nil => intro s; rfl
  | cons a as ih =>
    intro s
    rw [List.foldl_cons, ih, hf]

theorem crossDeps_evolves (w : World) (sgs : List (Nat × Nat)) (stackIds : List Nat)
    (s : CState) : Evolves s (crossDeps w sgs stackIds s) := by
  unfold crossDeps
  refine evolves_foldl _ (fun t x => ?_) _ _
  refine evolves_foldl _ (fun t2 d => ?_) _ _
  cases sgs.lookup x with
  | none => exact Evolves.erefl t2
  | some gr =>
    cases sgs.lookup d with
    | none => exact Evolves.erefl t2
    | some dg => exact evolves_dependOn t2 gr dg

theorem crossDeps_len (w : World) (sgs : List (Nat × Nat)) (stackIds : List Nat)
    (s : CState) : (crossDeps w sgs stackIds s).g.length = s.g.length := by
  unfold crossDeps
  refine foldl_len_pres _ (fun t x => ?_) _ _
  refine foldl_len_pres _ (fun t2 d => ?_) _ _
  cases sgs.lookup x with
  | none => rfl
  | some gr =>
    cases sgs.lookup d with
    | none => rfl
    | some dg => exact length_dependOn t2 gr dg

/-- The inner loop of `crossDeps` records the edge for a declared
dependency whose stack graph is in the map. -/
theorem crossDeps_inner_edge {sgs : List (Nat × Nat)} {stId gr dg dep : Nat}
    (hg : sgs.lookup stId = some gr) (hdg : sgs.lookup dep = some dg) :
    ∀ (deps : List Nat) (s : CState), dep ∈ deps → gr < s.g.length →
    dg ∈ (getNode (deps.foldl (fun acc2 d =>
      match sgs.lookup stId, sgs.lookup d with
      | some g2, some dg2 => dependOn acc2 g2 dg2
      | _, _ => acc2) s) gr).deps := by
  intro deps
  induction deps with
  | nil =>
    intro s hmem
    simp at hmem
  | cons d rest ih =>
    intro s hmem hlt
    rw [List.foldl_cons]
    have hpres : Evolves (match sgs.lookup stId, sgs.lookup d with
        | some g2, some dg2 => dependOn s g2 dg2
        | _, _ => s) (rest.foldl (fun acc2 d =>
          match sgs.lookup stId, sgs.lookup d with
          | some g2, some dg2 => dependOn acc2 g2 dg2
          | _, _ => acc2) (match sgs.lookup stId, sgs.lookup d with
            | some g2, some dg2 => dependOn s g2 dg2
            | _, _ => s)) := by
      refine evolves_foldl _ (fun t x => ?_) _ _
      cases sgs.lookup stId with
      | none => exact Evolves.erefl t
      | some g2 =>
        cases sgs.lookup x with
        | none => exact Evolves.erefl t
        | some dg2 => exact evolves_dependOn t g2 dg2
    rcases List.mem_cons.mp hmem with hmem | hmem
    · subst hmem
      rw [hg, hdg] at hpres ⊢
      exact hpres.deps_mem (dependOn_mem s gr dg hlt)
    · have hlen : (match sgs.lookup stId, sgs.lookup d with
          | some g2, some dg2 => dependOn s g2 dg2
          | _, _ => s).g.length = s.g.length := by
        cases sgs.lookup stId with
        | none => rfl
        | some g2 =>
          cases sgs.lookup d with
          | none => rfl
          | some dg2 => exact length_dependOn s g2 dg2
      exact ih _ hmem (by omega)

/-- `crossDeps` records the cross-stack edge: if the stage lists `stId`,
`stId` declares a dependency on `dep`, and both are in the stack-graph
map, the dependency edge from `stId`'s group to `dep`'s group is
present afterwards. -/
theorem crossDeps_edge {w : World} {sgs : List (Nat × Nat)} {stId gr dg dep : Nat}
    (hg : sgs.lookup stId = some gr) (hdg : sgs.lookup dep = some dg)
    (hdep : dep ∈ (getStack w stId).dependsOnStacks) :
    ∀ (stackIds : List Nat) (s : CState), stId ∈ stackIds → gr < s.g.length →
    dg ∈ (getNode (crossDeps w sgs stackIds s) gr).deps := by
  intro stackIds
  induction stackIds with
  | nil =>
    intro s hmem
    simp at hmem
  | cons x rest ih =>
    intro s hmem hlt
    unfold crossDeps
    rw [List.foldl_cons]
    have hpres : ∀ t : CState, Evolves t (crossDeps w sgs rest t) :=
      fun t => crossDeps_evolves w sgs rest t
    have hlen : ∀ t : CState, ((getStack w x).dependsOnStacks.foldl (fun acc2 d =>
        match sgs.lookup x, sgs.lookup d with
        | some g2, some dg2 => dependOn acc2 g2 dg2
        | _, _ => acc2) t).g.length = t.g.length := by
      intro t
      refine foldl_len_pres _ (fun t2 d => ?_) _ _
      cases sgs.lookup x with
      | none => rfl
      | some g2 =>
        cases sgs.lookup d with
        | none => rfl
        | some dg2 => exact length_dependOn t2 g2 dg2
    rcases List.mem_cons.mp hmem with hx | hx
    · subst hx
      have hedge := crossDeps_inner_edge hg hdg (getStack w stId).dependsOnStacks s hdep hlt
      exact (hpres _).deps_mem hedge
    · have := hlen s
      exact ih _ hx (by omega)

theorem addPres_evolves {w : World} {fuel : Nat} {baseline : List Nat} :
    ∀ {l : List Nat} {parent : Nat} {s s' : CState},
    addPres w fuel baseline l parent s = .ok s' → Evolves s s' := by
  intro l
  induction l with
  | nil =>
    intro parent s s' h
    simp only [addPres] at h
    obtain rfl : s = s' := by simpa using h
    exact Evolves.erefl s
  | cons p rest ih =>
    intro parent s s' h
    simp only [addPres] at h
    cases ha : addAndRecurse w fuel p parent s with
    | error e =>
      rw [ha] at h
      simp at h
    | ok q =>
      obtain ⟨preNode, s1⟩ := q
      rw [ha] at h
      refine ((addAndRecurse_stepEvolve ha).ev.etrans
        ((evolves_foldl _ (fun t b => evolves_dependOn t b preNode) _ _).etrans (ih h)))

theorem addPosts_evolves {w : World} {fuel : Nat} {baseline : List Nat} :
    ∀ {l : List Nat} {parent : Nat} {s s' : CState},
    addPosts w fuel baseline l parent s = .ok s' → Evolves s s' := by
  intro l
  induction l with
  | nil =>
    intro parent s s' h
    simp only [addPosts] at h
    obtain rfl : s = s' := by simpa using h
    exact Evolves.erefl s
  | cons p rest ih =>
    intro parent s s' h
    simp only [addPosts] at h
    cases ha : addAndRecurse w fuel p parent s with
    | error e =>
      rw [ha] at h
      simp at h
    | ok q =>
      obtain ⟨postNode, s1⟩ := q
      rw [ha] at h
      refine ((addAndRecurse_stepEvolve ha).ev.etrans
        ((evolves_foldl _ (fun t b => evolves_dependOn t postNode b) _ _).etrans (ih h)))

theorem addPrePost_evolves {w : World} {fuel : Nat} {pre post : List Nat}
    {parent : Nat} {s s' : CState}
    (h : addPrePost w fuel pre post parent s = .ok s') : Evolves s s' := by
  simp only [addPrePost] at h
  cases hp : addPres w fuel (getNode s parent).children pre parent s with
  | error e =>
    rw [hp] at h
    simp at h
  | ok s1 =>
    rw [hp] at h
    exact (addPres_evolves hp).etrans (addPosts_evolves h)

theorem addStage_ok {w : World} {fuel : Nat} {stage : StageDeployment} {s : CState}
    {g : Nat} {s' : CState} (h : addStage w fuel stage s = .ok (g, s')) :
    Evolves s s' ∧ g = s.g.length ∧ g < s'.g.length := by
  unfold addStage at h
  cases hst : addStacks w fuel (newNode s stage.stageName (some .group)).1
      stage.stageStacks [] (newNode s stage.stageName (some .group)).2 with
  | error e =>
    simp only [hst] at h
    simp at h
  | ok p =>
    obtain ⟨sgs, s2⟩ := p
    simp only [hst] at h
    cases hpp : addPrePost w fuel stage.pre stage.post
        (newNode s stage.stageName (some .group)).1
        (crossDeps w sgs stage.stageStacks s2) with
    | error e =>
      rw [hpp] at h
      simp at h
    | ok s4 =>
      rw [hpp] at h
      obtain ⟨h1, h2⟩ := by simpa using h
      subst h2
      obtain ⟨hev2, _⟩ := addStacks_ok hst
      have hev : Evolves s s4 :=
        (evolves_newNode _ _ _).etrans (hev2.etrans
          ((crossDeps_evolves w sgs stage.stageStacks s2).etrans (addPrePost_evolves hpp)))
      have hlen2 := hev2.len_le
      have hlen3 := (addPrePost_evolves hpp).len_le
      rw [crossDeps_len] at hlen3
      have hlen1 : (newNode s stage.stageName (some .group)).2.g.length = s.g.length + 1 :=
        length_newNode _ _ _
      refine ⟨hev, by rw [← h1, newNode_fst], ?_⟩
      rw [← h1, newNode_fst]
      omega

theorem addStagesList_ok {w : World} {fuel : Nat} : ∀ {l : List StageDeployment}
    {acc : List Nat} {s : CState} {ids : List Nat} {s' : CState},
    addStagesList w fuel l acc s = .ok (ids, s') →
    Evolves s s' ∧ (∀ g ∈ ids, g ∈ acc ∨ g < s'.g.length) := by
  intro l
  induction l with
  | nil =>
    intro acc s ids s' h
    simp only [addStagesList] at h
    obtain ⟨h1, h2⟩ := by simpa using h
    subst h2
    refine ⟨Evolves.erefl s, fun g hg => ?_⟩
    rw [← h1] at hg
    exact Or.inl (List.mem_reverse.mp hg)
  | cons st rest ih =>
    intro acc s ids s' h
    simp only [addStagesList] at h
    cases hs : addStage w fuel st s with
    | error e =>
      rw [hs] at h
      simp at h
    | ok p =>
      obtain ⟨g1, s1⟩ := p
      rw [hs] at h
      obtain ⟨hev1, hfst, hlt⟩ := addStage_ok hs
      obtain ⟨hev2, hmem⟩ := ih h
      refine ⟨hev1.etrans hev2, fun g hg => ?_⟩
      rcases hmem g hg with hg2 | hg2
      · rcases List.mem_cons.mp hg2 with hg3 | hg3
        · subst hg3
          right
          have := hev2.len_le
          omega
        · exact Or.inl hg3
      · exact Or.inr hg2

theorem addWave_ok {w : World} {fuel : Nat} {wave : Wave} {s : CState}
    {g : Nat} {s' : CState} (h : addWave w fuel wave s = .ok (g, s')) :
    Evolves s s' ∧ g < s'.g.length := by
  unfold addWave at h
  have hMain : ∀ {g2 : Nat} {s3 : CState},
      (match wave.stages with
        | [st] => addStage w fuel st s
        | stages =>
          match addStagesList w fuel stages [] s with
          | .error e => .error e
          | .ok (ids, s1) =>
            .ok ((newNode s1 wave.id (some .group)).1,
              ids.foldl (fun acc c => addChild acc (newNode s1 wave.id (some .group)).1 c)
                (newNode s1 wave.id (some .group)).2)) = .ok (g2, s3) →
      Evolves s s3 ∧ g2 < s3.g.length := by
    intro g2 s3 hb
    match hws : wave.stages, hb with
    | [st], hb =>
      obtain ⟨hev, _, hlt⟩ := addStage_ok hb
      exact ⟨hev, by omega⟩
    | [], hb =>
      simp only [addStagesList, List.reverse_nil, List.foldl_nil,
        Except.ok.injEq, Prod.mk.injEq] at hb
      obtain ⟨h1, h2⟩ := hb
      subst h2
      refine ⟨(evolves_newNode _ _ _).etrans (Evolves.erefl _), ?_⟩
      rw [← h1]
      simp only [newNode_fst, length_newNode]
      omega
    | st1 :: st2 :: rest, hb =>
      simp only [] at hb
      cases hsl : addStagesList w fuel (st1 :: st2 :: rest) [] s with
      | error e =>
        simp [hsl] at hb
      | ok p =>
        obtain ⟨ids, s1⟩ := p
        simp only [hsl, Except.ok.injEq, Prod.mk.injEq] at hb
        obtain ⟨h1, h2⟩ := hb
        subst h2
        obtain ⟨hev1, _⟩ := addStagesList_ok hsl
        have hev2 : Evolves (newNode s1 wave.id (some .group)).2
            (ids.foldl (fun acc c => addChild acc (newNode s1 wave.id (some .group)).1 c)
              (newNode s1 wave.id (some .group)).2) :=
          evolves_foldl _ (fun t c => evolves_addChild t _ c) _ _
        have hlenf : (ids.foldl (fun acc c => addChild acc (newNode s1 wave.id (some .group)).1 c)
            (newNode s1 wave.id (some .group)).2).g.length
              = (newNode s1 wave.id (some .group)).2.g.length :=
          foldl_len_pres _ (fun t c => length_addChild t _ c) _ _
        refine ⟨hev1.etrans ((evolves_newNode s1 wave.id (some .group)).etrans ?_), ?_⟩
        · exact hev2
        · rw [← h1, hlenf, length_newNode]
          show s1.g.length < s1.g.length + 1
          omega
  cases hbuilt : (match wave.stages with
      | [st] => addStage w fuel st s
      | stages =>
        match addStagesList w fuel stages [] s with
        | .error e => .error e
        | .ok (ids, s1) =>
          .ok ((newNode s1 wave.id (some .group)).1,
            ids.foldl (fun acc c => addChild acc (newNode s1 wave.id (some .group)).1 c)
              (newNode s1 wave.id (some .group)).2)) with
  | error e =>
    rw [hbuilt] at h
    simp at h
  | ok p =>
    obtain ⟨rg, s3⟩ := p
    rw [hbuilt] at h
    simp only [] at h
    obtain ⟨hev1, hlt1⟩ := hMain hbuilt
    cases hpp : addPrePost w fuel wave.pre wave.post rg s3 with
    | error e =>
      rw [hpp] at h
      simp at h
    | ok s4 =>
      rw [hpp] at h
      obtain ⟨h1, h2⟩ := by simpa using h
      subst h2
      have hev2 := addPrePost_evolves hpp
      refine ⟨hev1.etrans (hev2.etrans (evolves_dependOn _ _ _)), ?_⟩
      rw [← h1]
      have := hev2.len_le
      rw [length_dependOn]
      omega

theorem addWaves_ok {w : World} {fuel : Nat} : ∀ {l : List Wave}
    {acc : List Nat} {s : CState} {ids : List Nat} {s' : CState},
    addWaves w fuel l acc s = .ok (ids, s') →
    Evolves s s' ∧ (∀ g ∈ ids, g ∈ acc ∨ g < s'.g.length) := by
  intro l
  induction l with
  | nil =>
    intro acc s ids s' h
    simp only [addWaves] at h
    obtain ⟨h1, h2⟩ := by simpa using h
    subst h2
    refine ⟨Evolves.erefl s, fun g hg => ?_⟩
    rw [← h1] at hg
    exact Or.inl (List.mem_reverse.mp hg)
  | cons wv rest ih =>
    intro acc s ids s' h
    simp only [addWaves] at h
    cases hw : addWave w fuel wv s with
    | error e =>
      rw [hw] at h
      simp at h
    | ok p =>
      obtain ⟨g1, s1⟩ := p
      rw [hw] at h
      obtain ⟨hev1, hlt⟩ := addWave_ok hw
      obtain ⟨hev2, hmem⟩ := ih h
      refine ⟨hev1.etrans hev2, fun g hg => ?_⟩
      rcases hmem g hg with hg2 | hg2
      · rcases List.mem_cons.mp hg2 with hg3 | hg3
        · subst hg3
          right
          have := hev2.len_le
          omega
        · exact Or.inl hg3
      · exact Or.inr hg2

theorem chainWaves_evolves : ∀ (ws : List Nat) (s : CState), Evolves s (chainWaves s ws)
  | [], s => Evolves.erefl s
  | [_], s => Evolves.erefl s
  | a :: b :: rest, s =>
    (evolves_dependOn s b a).etrans (chainWaves_evolves (b :: rest) (dependOn s b a))

theorem chainWaves_edge : ∀ (ws : List Nat), ∀ (s : CState),
    (∀ x ∈ ws, x < s.g.length) → ∀ i, i + 1 < ws.length →
    ws.getD i 0 ∈ (getNode (chainWaves s ws) (ws.getD (i + 1) 0)).deps := by
  intro ws
  induction ws with
  | nil =>
    intro s _ i hi
    simp at hi
  | cons a tl ih =>
    cases tl with
    | nil =>
      intro s _ i hi
      simp at hi
    | cons b rest =>
      intro s hval i hi
      cases i with
      | zero =>
        have hb : b < s.g.length := hval b (by simp)
        have hmem : a ∈ (getNode (dependOn s b a) b).deps := dependOn_mem s b a hb
        show a ∈ (getNode (chainWaves (dependOn s b a) (b :: rest)) b).deps
        exact (chainWaves_evolves _ _).deps_mem hmem
      | succ j =>
        have hval2 : ∀ x ∈ b :: rest, x < (dependOn s b a).g.length := by
          intro x hx
          rw [length_dependOn]
          exact hval x (List.mem_cons_of_mem a hx)
        have hrec := ih (dependOn s b a) hval2 j (by simpa using hi)
        simpa using hrec

/-! ### Claim C4: sequential waves -/

/-- The world for the three-wave example: one synth Step with an output. -/
def wBp3 : World := ⟨[⟨("Synth"), [], some ⟨0⟩, false⟩], []⟩

/-- A blueprint with three waves W0, W1, W2, each holding one empty stage. -/
def bp3 : Blueprint :=
  ⟨0, [⟨("W0"), [⟨("St0"), [], [], []⟩], [], []⟩,
       ⟨("W1"), [⟨("St1"), [], [], []⟩], [], []⟩,
       ⟨("W2"), [⟨("St2"), [], [], []⟩], [], []⟩]⟩

/-- The compiled result of `bp3` (single-stage waves elide the wave
group, so the wave graphs are the stage groups, nodes 3, 4, 5). -/
def bp3Result : CompileResult :=
  { state :=
      { g := [⟨"", some .group, [1], []⟩,
              ⟨("Build"), none, [2], []⟩,
              ⟨("Synth"), some (.step 0 true), [], []⟩,
              ⟨("St0"), some .group, [], [2]⟩,
              ⟨("St1"), some .group, [], [2, 3]⟩,
              ⟨("St2"), some .group, [], [2, 4]⟩]
        added := [(0, 2)]
        assetNodes := []
        lastPreparationNode := 2
        cloudAssemblyFileSet := ⟨0⟩
        fileAssetCtr := 0
        dockerAssetCtr := 0 }
    synthNode := 2
    waveNodes := [3, 4, 5]
    selfMutateNode := none }

/-- C4: after construction, for every `i ≥ 1` wave `i`'s graph depends
on wave `i-1`'s graph (first conjunct, for every blueprint); and wave
order alone introduces no other cross-wave edge: in the compiled
three-wave example the wave graphs 3, 4, 5 carry exactly the edges to
the previous wave and to the synth node (2) — in particular W2's graph
(5) has no edge to W0's graph (3) and vice versa. -/
theorem sequential_waves :
    (∀ (w : World) (bp : Blueprint) (sm : Bool) (fuel : Nat) (r : CompileResult),
      graphFromBlueprint w bp sm fuel = .ok r →
      ∀ i, i + 1 < r.waveNodes.length →
        r.waveNodes.getD i 0 ∈ (getNode r.state (r.waveNodes.getD (i + 1) 0)).deps) ∧
    graphFromBlueprint wBp3 bp3 false 5 = .ok bp3Result ∧
    bp3Result.waveNodes = [3, 4, 5] ∧
    (getNode bp3Result.state 4).deps = [2, 3] ∧
    (getNode bp3Result.state 5).deps = [2, 4] ∧
    (getNode bp3Result.state 3).deps = [2] ∧
    3 ∉ (getNode bp3Result.state 5).deps ∧
    5 ∉ (getNode bp3Result.state 3).deps := by
  refine ⟨?_, by rfl, by rfl, by rfl, by rfl, by rfl, by decide, by decide⟩
  intro w bp sm fuel r h
  unfold graphFromBlueprint at h
  split at h
  · simp at h
  · rename_i synthNode s2 heqA
    simp only [] at h
    split at h
    · simp at h
    · rename_i ca heqO
      split at h
      · simp at h
      · rename_i waveIds s7 heqW
        obtain rfl : _ = r := by simpa using h
        intro i hi
        obtain ⟨hev, hval⟩ := addWaves_ok heqW
        apply chainWaves_edge
        · intro x hx
          rcases hval x hx with hx2 | hx2
          · simp at hx2
          · exact hx2
        · exact hi

/-- Witness for C4's general conjunct at a concrete input: in the
three-wave example, wave 0's graph (node 3) is among wave 1's graph
(node 4) dependencies. -/
theorem sequential_waves_witness : (3 : Nat) ∈ (getNode bp3Result.state 4).deps := by
  have h := sequential_waves.1 wBp3 bp3 false 5 bp3Result (by rfl) 0 (by decide)
  simpa using h

/-! ### Claim C6: cross-stack ordering -/

theorem lookup_mem {l : List (Nat × Nat)} {k v : Nat}
    (h : l.lookup k = some v) : (k, v) ∈ l := by
  induction l with
  | nil => simp [List.lookup] at h
  | cons p rest ih =>
    rw [List.lookup_cons] at h
    cases hbe : (k == p.1) with
    | true =>
      simp only [hbe] at h
      obtain rfl : p.2 = v := by simpa using h
      have : k = p.1 := by simpa using hbe
      subst this
      simp
    | false =>
      simp only [hbe] at h
      exact List.mem_cons_of_mem p (ih h)

/-- C6: if stack `s2id` of a stage declares a dependency on stack
`s1id` of the same stage, then after `addStage` completes, `s2id`'s
stack-scoped group depends on `s1id`'s stack-scoped group.  The wiring
is the second pass (`crossDeps`), running over the map produced by the
first pass (`addStacks`) after all stack subgraphs exist, so it holds
regardless of declaration order. -/
theorem cross_stack_ordering (w : World) (fuel : Nat) (stage : StageDeployment)
    (s : CState) (g : Nat) (s' : CState) (sgs : List (Nat × Nat)) (sMid : CState)
    (s2id s1id n2 n1 : Nat)
    (hstage : addStage w fuel stage s = .ok (g, s'))
    (hstacks : addStacks w fuel (newNode s stage.stageName (some .group)).1
      stage.stageStacks [] (newNode s stage.stageName (some .group)).2 = .ok (sgs, sMid))
    (hmem : s2id ∈ stage.stageStacks)
    (hdep : s1id ∈ (getStack w s2id).dependsOnStacks)
    (h2 : sgs.lookup s2id = some n2) (h1 : sgs.lookup s1id = some n1) :
    n1 ∈ (getNode s' n2).deps := by
  simp only [addStage] at hstage
  rw [hstacks] at hstage
  simp only [] at hstage
  cases hpp : addPrePost w fuel stage.pre stage.post
      (newNode s stage.stageName (some .group)).1
      (crossDeps w sgs stage.stageStacks sMid) with
  | error e =>
    rw [hpp] at hstage
    simp at hstage
  | ok s4 =>
    rw [hpp] at hstage
    obtain ⟨hg, hs⟩ := by simpa using hstage
    subst hs
    have hval : n2 < sMid.g.length := by
      obtain ⟨_, hvl⟩ := addStacks_ok hstacks
      rcases hvl (s2id, n2) (lookup_mem h2) with hx | hx
      · simp at hx
      · exact hx
    have hedge := crossDeps_edge h2 h1 hdep stage.stageStacks sMid hmem hval
    exact (addPrePost_evolves hpp).deps_mem hedge

/-- The world for the C6 witness: one synth Step and two stacks, the
second declaring a dependency on the first. -/
def wC6 : World := ⟨[⟨("Synth"), [], some ⟨0⟩, false⟩],
  [⟨("S1"), [], [], none⟩, ⟨("S2"), [], [0], none⟩]⟩

/-- The stage of the C6 witness: stacks S1 (index 0) and S2 (index 1). -/
def stC6 : StageDeployment := ⟨("Stage"), [0, 1], [], []⟩

/-- The compiled stage of the C6 witness: S1's group is node 2, S2's
group is node 6, and node 6 depends on node 2. -/
def c6Final : CState :=
  { g := [⟨"", some .group, [], []⟩,
          ⟨("Stage"), some .group, [5], []⟩,
          ⟨("S1"), some (.stackGroup 0), [3, 4], []⟩,
          ⟨("Prepare"), some (.prepare 0), [], [5]⟩,
          ⟨("Deploy"), some (.execute 0), [], [3]⟩,
          ⟨("Synth"), some (.step 0 false), [], []⟩,
          ⟨("S2"), some (.stackGroup 1), [7, 8], [2]⟩,
          ⟨("Prepare"), some (.prepare 1), [], [5]⟩,
          ⟨("Deploy"), some (.execute 1), [], [7]⟩]
    added := [(0, 5)]
    assetNodes := []
    lastPreparationNode := 0
    cloudAssemblyFileSet := ⟨0⟩
    fileAssetCtr := 0
    dockerAssetCtr := 0 }

/-- The pass-one state of the C6 witness (before cross-stack wiring):
node 6 does not yet depend on node 2. -/
def c6Mid : CState :=
  { c6Final with
    g := c6Final.g.set 6 ⟨("S2"), some (.stackGroup 1), [7, 8], []⟩ }

/-- Witness for C6 at a concrete input: S2's stack group (node 6)
depends on S1's stack group (node 2) after the stage is compiled. -/
theorem cross_stack_ordering_witness : (2 : Nat) ∈ (getNode c6Final 6).deps :=
  cross_stack_ordering wC6 2 stC6 initState 1 c6Final [(1, 6), (0, 2)] c6Mid
    1 0 6 2 (by rfl) (by rfl) (by decide) (by decide) (by rfl) (by rfl)

/-! ### Claim C5: the pre/post hook barrier -/

theorem deps_addChild (s : CState) (p c j : Nat) :
    (getNode (addChild s p c) j).deps = (getNode s j).deps := by
  by_cases hp : p < s.g.length
  · by_cases hpj : p = j
    · subst hpj
      rw [getNode_addChild_self _ _ _ hp]
    · rw [getNode_addChild_ne _ _ _ _ hpj]
  · rw [getNode_addChild_ge _ _ _ (le_of_not_lt hp)]

theorem deps_dependOn_other (s : CState) (a b j : Nat) (h : a ≠ j) :
    (getNode (dependOn s a b) j).deps = (getNode s j).deps := by
  rw [getNode_dependOn_ne _ _ _ _ h]

theorem deps_dependOn_self (s : CState) (a b : Nat) (h : a < s.g.length) :
    (getNode (dependOn s a b) a).deps = (getNode s a).deps ++ [b] := by
  rw [getNode_dependOn_self _ _ _ h]

/-- The post-hook fold appends exactly the baseline to the post node's
dependency list. -/
theorem fold_post_deps_self : ∀ (l : List Nat) (t : CState) (node : Nat),
    node < t.g.length →
    (getNode (l.foldl (fun acc b' => dependOn acc node b') t) node).deps
      = (getNode t node).deps ++ l := by
  intro l
  induction l with
  | nil =>
    intro t node _
    simp
  | cons b' rest ih =>
    intro t node hlt
    rw [List.foldl_cons, ih _ _ (by rw [length_dependOn]; exact hlt),
      deps_dependOn_self _ _ _ hlt]
    simp

/-- The post-hook fold leaves every other node's dependency list alone. -/
theorem fold_post_deps_other : ∀ (l : List Nat) (t : CState) (node j : Nat),
    node ≠ j →
    (getNode (l.foldl (fun acc b' => dependOn acc node b') t) j).deps
      = (getNode t j).deps := by
  intro l
  induction l with
  | nil =>
    intro t node j _
    rfl
  | cons b' rest ih =>
    intro t node j hne
    rw [List.foldl_cons, ih _ _ _ hne, deps_dependOn_other _ _ _ _ hne]

/-- The pre-hook fold gives every member of the folded list a dependency
on the pre node. -/
theorem fold_pre_deps_mem : ∀ (l : List Nat) (t : CState) (v x : Nat),
    x ∈ l → x < t.g.length →
    v ∈ (getNode (l.foldl (fun acc y => dependOn acc y v) t) x).deps := by
  intro l
  induction l with
  | nil =>
    intro t v x hx
    simp at hx
  | cons y rest ih =>
    intro t v x hx hlt
    rw [List.foldl_cons]
    rcases List.mem_cons.mp hx with hx2 | hx2
    · subst hx2
      have hmem : v ∈ (getNode (dependOn t x v) x).deps := dependOn_mem t x v hlt
      exact (evolves_foldl _ (fun t2 y2 => evolves_dependOn t2 y2 v) rest _).deps_mem hmem
    · exact ih _ _ _ hx2 (by rw [length_dependOn]; exact hlt)

/-- The pre-hook fold touches only the nodes in the folded list. -/
theorem fold_pre_deps_other : ∀ (l : List Nat) (t : CState) (v j : Nat),
    j ∉ l →
    (getNode (l.foldl (fun acc y => dependOn acc y v) t) j).deps
      = (getNode t j).deps := by
  intro l
  induction l with
  | nil =>
    intro t v j _
    rfl
  | cons y rest ih =>
    intro t v j hj
    rw [List.foldl_cons, ih _ _ _ (fun hh => hj (List.mem_cons_of_mem y hh)),
      deps_dependOn_other _ _ _ _
        (fun hh => hj (by rw [← hh]; exact List.mem_cons_self y rest))]

/-- Both barrier folds preserve the memo, the store length and every
node's children. -/
theorem fold_dependOn_added : ∀ (l : List Nat) (t : CState) (f : CState → Nat → CState),
    (∀ t2 y, (f t2 y).added = t2.added ∧ (f t2 y).g.length = t2.g.length ∧
      ∀ j, (getNode (f t2 y) j).children = (getNode t2 j).children) →
    (l.foldl f t).added = t.added ∧ (l.foldl f t).g.length = t.g.length ∧
    ∀ j, (getNode (l.foldl f t) j).children = (getNode t j).children := by
  intro l
  induction l with
  | nil =>
    intro t f _
    exact ⟨rfl, rfl, fun _ => rfl⟩
  | cons y rest ih =>
    intro t f hf
    rw [List.foldl_cons]
    obtain ⟨h1, h2, h3⟩ := ih (f t y) f hf
    obtain ⟨g1, g2, g3⟩ := hf t y
    exact ⟨by rw [h1, g1], by rw [h2, g2], fun j => by rw [h3 j, g3 j]⟩

theorem dependOn_basic (t : CState) (a b : Nat) :
    (dependOn t a b).added = t.added ∧ (dependOn t a b).g.length = t.g.length ∧
    ∀ j, (getNode (dependOn t a b) j).children = (getNode t j).children := by
  refine ⟨by simp [dependOn, setNode], length_dependOn t a b, fun j => ?_⟩
  by_cases ha : a < t.g.length
  · by_cases haj : a = j
    · subst haj
      rw [getNode_dependOn_self _ _ _ ha]
    · rw [getNode_dependOn_ne _ _ _ _ haj]
  · rw [getNode_dependOn_ge _ _ _ (le_of_not_lt ha)]

/-- The shape of `addAndRecurse` on a fresh non-source Step with no
declared dependencies: the node is allocated at the end of the store,
attached to the requested parent and memoized; nothing else changes. -/
theorem addAndRecurse_simple {w : World} {fuel stepId parent : Nat} {s : CState}
    (hl : s.added.lookup stepId = none)
    (hdeps : (getStep w stepId).dependencySteps = [])
    (hsrc : (getStep w stepId).isSource = false) :
    addAndRecurse w (fuel + 1) stepId parent s =
      .ok (s.g.length,
        { addChild (newNode s (getStep w stepId).name
            (some (.step stepId false))).2 parent s.g.length with
          added := (stepId, s.g.length) ::
            (addChild (newNode s (getStep w stepId).name
              (some (.step stepId false))).2 parent s.g.length).added }) := by
  rw [addAndRecurse_succ]
  simp only [hl]
  have ha : attachFresh w stepId parent s =
      (s.g.length, parent,
        { addChild (newNode s (getStep w stepId).name
            (some (.step stepId false))).2 parent s.g.length with
          added := (stepId, s.g.length) ::
            (addChild (newNode s (getStep w stepId).name
              (some (.step stepId false))).2 parent s.g.length).added }) := by
    simp only [attachFresh]
    rw [if_neg (by simp [hsrc])]
    rfl
  rw [ha, hdeps]
  rw [addDeps_nil]

/-- The state produced by `addAndRecurse` for a fresh, non-source,
dependency-free Step. -/
def simpleAdd (w : World) (stepId parent : Nat) (s : CState) : CState :=
  { addChild (newNode s (getStep w stepId).name
      (some (.step stepId false))).2 parent s.g.length with
    added := (stepId, s.g.length) ::
      (addChild (newNode s (getStep w stepId).name
        (some (.step stepId false))).2 parent s.g.length).added }

theorem addAndRecurse_simple2 {w : World} {fuel stepId parent : Nat} {s : CState}
    (hl : s.added.lookup stepId = none)
    (hdeps : (getStep w stepId).dependencySteps = [])
    (hsrc : (getStep w stepId).isSource = false) :
    addAndRecurse w (fuel + 1) stepId parent s =
      .ok (s.g.length, simpleAdd w stepId parent s) :=
  addAndRecurse_simple hl hdeps hsrc

theorem simpleAdd_len (w : World) (stepId parent : Nat) (s : CState) :
    (simpleAdd w stepId parent s).g.length = s.g.length + 1 := by
  show (addChild _ _ _).g.length = _
  rw [length_addChild, length_newNode]

theorem simpleAdd_added (w : World) (stepId parent : Nat) (s : CState) :
    (simpleAdd w stepId parent s).added = (stepId, s.g.length) :: s.added := rfl

theorem simpleAdd_deps_lt (w : World) (stepId parent : Nat) (s : CState) {j : Nat}
    (hj : j < s.g.length) :
    (getNode (simpleAdd w stepId parent s) j).deps = (getNode s j).deps := by
  show (getNode (addChild _ _ _) j).deps = _
  rw [deps_addChild, getNode_newNode_lt _ _ _ _ hj]

theorem simpleAdd_deps_self (w : World) (stepId parent : Nat) (s : CState) :
    (getNode (simpleAdd w stepId parent s) s.g.length).deps = [] := by
  show (getNode (addChild _ _ _) s.g.length).deps = []
  rw [deps_addChild, getNode_newNode_self]

theorem evolves_simpleAdd {w : World} {stepId parent : Nat} {s : CState}
    (hl : s.added.lookup stepId = none) : Evolves s (simpleAdd w stepId parent s) :=
  (stepEvolve_memo_of
    (stepEvolve_addChild_of (stepEvolve_newNode_of (StepEvolve.srefl s) _ _) parent
      (le_refl s.g.length)) hl).ev

theorem evolves_preFold (v : Nat) (l : List Nat) (t : CState) :
    Evolves t (l.foldl (fun acc y => dependOn acc y v) t) :=
  evolves_foldl _ (fun t2 y => evolves_dependOn t2 y v) l t

theorem evolves_postFold (node : Nat) (l : List Nat) (t : CState) :
    Evolves t (l.foldl (fun acc y => dependOn acc node y) t) :=
  evolves_foldl _ (fun t2 y => evolves_dependOn t2 node y) l t

theorem preFold_basic (v : Nat) (l : List Nat) (t : CState) :
    (l.foldl (fun acc y => dependOn acc y v) t).added = t.added ∧
    (l.foldl (fun acc y => dependOn acc y v) t).g.length = t.g.length :=
  ⟨(fold_dependOn_added l t _ (fun t2 y => dependOn_basic t2 y v)).1,
   (fold_dependOn_added l t _ (fun t2 y => dependOn_basic t2 y v)).2.1⟩

theorem postFold_basic (node : Nat) (l : List Nat) (t : CState) :
    (l.foldl (fun acc y => dependOn acc node y) t).added = t.added ∧
    (l.foldl (fun acc y => dependOn acc node y) t).g.length = t.g.length :=
  ⟨(fold_dependOn_added l t _ (fun t2 y => dependOn_basic t2 node y)).1,
   (fold_dependOn_added l t _ (fun t2 y => dependOn_basic t2 node y)).2.1⟩

theorem lookup_cons_ne {k k2 v : Nat} (l : List (Nat × Nat)) (h : k2 ≠ k) :
    List.lookup k2 ((k, v) :: l) = List.lookup k2 l := by
  rw [List.lookup_cons]
  have hbe : (k2 == k) = false := beq_eq_false_iff_ne.mpr h
  simp only [hbe]

/-- C5: the pre/post barrier.  For a parent with baseline children
(the children present before any hook is added), fresh dependency-free
pre Steps `a`, `b` and post Steps `c`, `d`: every baseline node ends up
depending on the `a`-node (`s.g.length`) and the `b`-node
(`s.g.length + 1`); the `c`-node (`s.g.length + 2`) and the `d`-node
(`s.g.length + 3`) each end up depending on exactly the baseline — so
neither on each other, nor on the pre nodes. -/
theorem prePost_barrier (w : World) (fuel parent : Nat) (s : CState) (a b c d : Nat)
    (hnc : NodesClosed s)
    (hla : s.added.lookup a = none) (hlb : s.added.lookup b = none)
    (hlc : s.added.lookup c = none) (hld : s.added.lookup d = none)
    (hba : b ≠ a) (hca : c ≠ a) (hcb : c ≠ b)
    (hdana : d ≠ a) (hdb : d ≠ b) (hdc : d ≠ c)
    (hdA : (getStep w a).dependencySteps = []) (hsA : (getStep w a).isSource = false)
    (hdB : (getStep w b).dependencySteps = []) (hsB : (getStep w b).isSource = false)
    (hdC : (getStep w c).dependencySteps = []) (hsC : (getStep w c).isSource = false)
    (hdD : (getStep w d).dependencySteps = []) (hsD : (getStep w d).isSource = false) :
    ∃ s', addPrePost w (fuel + 1) [a, b] [c, d] parent s = .ok s' ∧
      (∀ x ∈ (getNode s parent).children,
        s.g.length ∈ (getNode s' x).deps ∧ s.g.length + 1 ∈ (getNode s' x).deps) ∧
      (getNode s' (s.g.length + 2)).deps = (getNode s parent).children ∧
      (getNode s' (s.g.length + 3)).deps = (getNode s parent).children := by
  set base := (getNode s parent).children with hbase
  set T0 := simpleAdd w a parent s with hT0
  set F1 := base.foldl (fun acc y => dependOn acc y s.g.length) T0 with hF1
  set T1 := simpleAdd w b parent F1 with hT1
  set F2 := base.foldl (fun acc y => dependOn acc y F1.g.length) T1 with hF2
  set T2 := simpleAdd w c parent F2 with hT2
  set F3 := base.foldl (fun acc y => dependOn acc F2.g.length y) T2 with hF3
  set T3 := simpleAdd w d parent F3 with hT3
  set F4 := base.foldl (fun acc y => dependOn acc F3.g.length y) T3 with hF4
  have hF1len : F1.g.length = s.g.length + 1 := by
    rw [hF1, (preFold_basic _ _ _).2, hT0, simpleAdd_len]
  have hF1a : F1.added = (a, s.g.length) :: s.added := by
    rw [hF1, (preFold_basic _ _ _).1, hT0, simpleAdd_added]
  have hlb1 : F1.added.lookup b = none := by
    rw [hF1a, lookup_cons_ne _ hba]
    exact hlb
  have hF2len : F2.g.length = s.g.length + 2 := by
    rw [hF2, (preFold_basic _ _ _).2, hT1, simpleAdd_len, hF1len]
  have hF2a : F2.added = (b, F1.g.length) :: F1.added := by
    rw [hF2, (preFold_basic _ _ _).1, hT1, simpleAdd_added]
  have hlc2 : F2.added.lookup c = none := by
    rw [hF2a, lookup_cons_ne _ hcb, hF1a, lookup_cons_ne _ hca]
    exact hlc
  have hF3len : F3.g.length = s.g.length + 3 := by
    rw [hF3, (postFold_basic _ _ _).2, hT2, simpleAdd_len, hF2len]
  have hF3a : F3.added = (c, F2.g.length) :: F2.added := by
    rw [hF3, (postFold_basic _ _ _).1, hT2, simpleAdd_added]
  have hld3 : F3.added.lookup d = none := by
    rw [hF3a, lookup_cons_ne _ hdc, hF2a, lookup_cons_ne _ hdb, hF1a,
      lookup_cons_ne _ hdana]
    exact hld
  have hT3len : T3.g.length = s.g.length + 4 := by
    rw [hT3, simpleAdd_len, hF3len]
  have heq : addPrePost w (fuel + 1) [a, b] [c, d] parent s = .ok F4 := by
    simp only [addPrePost, addPres, addPosts]
    rw [← hbase]
    rw [addAndRecurse_simple2 hla hdA hsA, ← hT0]
    simp only []
    rw [← hF1]
    rw [addAndRecurse_simple2 hlb1 hdB hsB, ← hT1]
    simp only []
    rw [← hF2]
    rw [addAndRecurse_simple2 hlc2 hdC hsC, ← hT2]
    simp only []
    rw [← hF3]
    rw [addAndRecurse_simple2 hld3 hdD hsD, ← hT3]
  have hevF2F4 : Evolves F2 F4 := by
    rw [hF4, hT3, hF3]
    exact (evolves_simpleAdd hlc2).etrans ((evolves_postFold _ _ _).etrans
      ((evolves_simpleAdd hld3).etrans (evolves_postFold _ _ _)))
  refine ⟨F4, heq, fun x hx => ?_, ?_, ?_⟩
  · have hxin : x ∈ base := hx
    have hxlt : x < s.g.length := hnc parent x (by rw [hbase] at hxin; exact hxin)
    constructor
    · have h1 : s.g.length ∈ (getNode F1 x).deps := by
        rw [hF1]
        exact fold_pre_deps_mem base T0 s.g.length x hxin
          (by rw [hT0, simpleAdd_len]; omega)
      have hev : Evolves F1 F4 := by
        have h12 : Evolves F1 F2 := by
          rw [hF2, hT1]
          exact (evolves_simpleAdd hlb1).etrans (evolves_preFold _ _ _)
        exact h12.etrans hevF2F4
      exact hev.deps_mem h1
    · have h1 : F1.g.length ∈ (getNode F2 x).deps := by
        rw [hF2]
        exact fold_pre_deps_mem base T1 F1.g.length x hxin
          (by rw [hT1, simpleAdd_len, hF1len]; omega)
      rw [hF1len] at h1
      exact hevF2F4.deps_mem h1
  · rw [← hF2len, hF4]
    rw [fold_post_deps_other base T3 F3.g.length F2.g.length
      (by rw [hF3len, hF2len]; omega)]
    rw [hT3, simpleAdd_deps_lt w d parent F3 (by rw [hF3len, hF2len]; omega)]
    rw [hF3]
    rw [fold_post_deps_self base T2 F2.g.length (by rw [hT2, simpleAdd_len]; omega)]
    rw [hT2, simpleAdd_deps_self]
    simp
  · rw [← hF3len, hF4]
    rw [fold_post_deps_self base T3 F3.g.length (by rw [hT3len, hF3len]; omega)]
    rw [hT3, simpleAdd_deps_self]
    simp

/-- World for the C5 witness: four fresh hook Steps A, B (pre) and
C, D (post). -/
def wC5 : World :=
  ⟨[⟨("A"), [], none, false⟩, ⟨("B"), [], none, false⟩,
    ⟨("C"), [], none, false⟩, ⟨("D"), [], none, false⟩], []⟩

/-- State for the C5 witness: a parent group (node 1) whose baseline
children are a Prepare/Deploy pair (nodes 2 and 3). -/
def sC5 : CState :=
  { g := [⟨"", some .group, [1], []⟩,
          ⟨("Grp"), some .group, [2, 3], []⟩,
          ⟨("P"), some (.prepare 0), [], []⟩,
          ⟨("Dp"), some (.execute 0), [], [2]⟩]
    added := []
    assetNodes := []
    lastPreparationNode := 0
    cloudAssemblyFileSet := ⟨0⟩
    fileAssetCtr := 0
    dockerAssetCtr := 0 }

/-- Witness for C5 at a concrete input: pre steps A, B become nodes 4
and 5, post steps C, D become nodes 6 and 7; both baseline nodes (2, 3)
depend on 4 and 5; nodes 6 and 7 depend on exactly the baseline `[2, 3]`. -/
theorem prePost_barrier_witness :
    ∃ s', addPrePost wC5 1 [0, 1] [2, 3] 1 sC5 = .ok s' ∧
      (∀ x ∈ (getNode sC5 1).children,
        4 ∈ (getNode s' x).deps ∧ 4 + 1 ∈ (getNode s' x).deps) ∧
      (getNode s' (4 + 2)).deps = (getNode sC5 1).children ∧
      (getNode s' (4 + 3)).deps = (getNode sC5 1).children :=
  prePost_barrier wC5 0 1 sC5 0 1 2 3 (nodesClosed_of_b (by rfl))
    (by rfl) (by rfl) (by rfl) (by rfl)
    (by decide) (by decide) (by decide) (by decide) (by decide) (by decide)
    (by rfl) (by rfl) (by rfl) (by rfl) (by rfl) (by rfl) (by rfl) (by rfl)

/-! ### Claims C7 and C9: error discipline and the asset-memo invariant -/

/-- The asset-memo invariant: every memo entry points at a node whose
annotation is the asset-publish variant. -/
def AssetInv (s : CState) : Prop :=
  ∀ k v, s.assetNodes.lookup k = some v →
    ∃ as, (getNode s v).ann = some (.publishAssets as)

theorem assetInv_of_evolves {s s' : CState} (hinv : AssetInv s) (hev : Evolves s s')
    (hassets : s'.assetNodes = s.assetNodes) : AssetInv s' := by
  intro k v h
  rw [hassets] at h
  obtain ⟨as, ha⟩ := hinv k v h
  exact hev.ann_publish v as ha

theorem assetInv_initState : AssetInv initState := by
  intro k v h
  simp [initState, List.lookup] at h

theorem assetInv_addAndRecurse {w : World} {fuel stepId parent : Nat} {s : CState}
    {n : Nat} {s' : CState} (hinv : AssetInv s)
    (h : addAndRecurse w fuel stepId parent s = .ok (n, s')) : AssetInv s' :=
  assetInv_of_evolves hinv (addAndRecurse_stepEvolve h).ev
    (addAndRecurse_stepEvolve h).assets_eq

theorem ann_addChild (s : CState) (p c j : Nat) :
    (getNode (addChild s p c) j).ann = (getNode s j).ann := by
  by_cases hp : p < s.g.length
  · by_cases hpj : p = j
    · subst hpj
      rw [getNode_addChild_self _ _ _ hp]
    · rw [getNode_addChild_ne _ _ _ _ hpj]
  · rw [getNode_addChild_ge _ _ _ (le_of_not_lt hp)]

theorem ann_dependOn (s : CState) (a b j : Nat) :
    (getNode (dependOn s a b) j).ann = (getNode s j).ann := by
  by_cases ha : a < s.g.length
  · by_cases haj : a = j
    · subst haj
      rw [getNode_dependOn_self _ _ _ ha]
    · rw [getNode_dependOn_ne _ _ _ _ haj]
  · rw [getNode_dependOn_ge _ _ _ (le_of_not_lt ha)]

/-- The new publish node created by `mkNewAssetNode` carries the
asset-publish annotation and heads the asset memo. -/
theorem mkNewAssetNode_spec (s : CState) (a : StackAsset) (ag : Nat) :
    (mkNewAssetNode s a ag).2.assetNodes
      = (a.assetId, (mkNewAssetNode s a ag).1) :: s.assetNodes ∧
    (getNode (mkNewAssetNode s a ag).2 (mkNewAssetNode s a ag).1).ann
      = some (.publishAssets [a]) := by
  cases hat : a.assetType with
  | file =>
    simp only [mkNewAssetNode, hat]
    constructor
    · simp [dependOn, addChild, setNode, newNode]
    · rw [ann_dependOn, ann_addChild]
      exact congrArg NodeData.ann
        (getNode_newNode_self { s with fileAssetCtr := s.fileAssetCtr + 1 } _ _)
  | dockerImage =>
    simp only [mkNewAssetNode, hat]
    constructor
    · simp [dependOn, addChild, setNode, newNode]
    · rw [ann_dependOn, ann_addChild]
      exact congrArg NodeData.ann
        (getNode_newNode_self { s with dockerAssetCtr := s.dockerAssetCtr + 1 } _ _)

theorem assetInv_mkNew {s : CState} (a : StackAsset) (ag : Nat)
    (hinv : AssetInv s) : AssetInv (mkNewAssetNode s a ag).2 := by
  obtain ⟨hmemo, hann⟩ := mkNewAssetNode_spec s a ag
  intro k v h
  rw [hmemo] at h
  rw [List.lookup_cons] at h
  cases hbe : (k == a.assetId) with
  | true =>
    simp only [hbe] at h
    obtain rfl : (mkNewAssetNode s a ag).1 = v := by simpa using h
    exact ⟨[a], hann⟩
  | false =>
    simp only [hbe] at h
    obtain ⟨as, ha⟩ := hinv k v h
    exact (evolves_mkNewAssetNode s a ag).ann_publish v as ha

theorem topLevelGraph_assetNodes (s : CState) (nm : String) :
    (topLevelGraph s nm).2.assetNodes = s.assetNodes := by
  unfold topLevelGraph
  cases htg : tryGetChild s 0 nm with
  | some r => rfl
  | none => simp [addChild, setNode, newNode]

theorem assetInv_topLevel {s : CState} (nm : String) (hinv : AssetInv s) :
    AssetInv (topLevelGraph s nm).2 :=
  assetInv_of_evolves hinv (evolves_topLevel s nm) (topLevelGraph_assetNodes s nm)

/-- Under the asset-memo invariant, `publishAsset` cannot fail: the
fatal branch requires a memo entry with a non-publish annotation. -/
theorem publishAsset_no_error {s : CState} {a : StackAsset} {e : CErr}
    (hinv : AssetInv s) : publishAsset s a ≠ .error e := by
  unfold publishAsset
  intro h
  cases hl : ((topLevelGraph s ("Assets")).2).assetNodes.lookup a.assetId with
  | none =>
    simp only [hl] at h
    simp at h
  | some n =>
    obtain ⟨as, ha⟩ := assetInv_topLevel ("Assets") hinv a.assetId n hl
    simp only [hl, ha] at h
    simp at h

theorem publishAsset_inv {s : CState} {a : StackAsset} {n : Nat} {s' : CState}
    (hinv : AssetInv s) (h : publishAsset s a = .ok (n, s')) : AssetInv s' := by
  unfold publishAsset at h
  have hinv1 : AssetInv (topLevelGraph s ("Assets")).2 := assetInv_topLevel _ hinv
  cases hl : ((topLevelGraph s ("Assets")).2).assetNodes.lookup a.assetId with
  | none =>
    simp only [hl] at h
    have h2 : (mkNewAssetNode (topLevelGraph s ("Assets")).2 a
        (topLevelGraph s ("Assets")).1).2 = s' := by
      have h12 : mkNewAssetNode (topLevelGraph s ("Assets")).2 a
          (topLevelGraph s ("Assets")).1 = (n, s') := by simpa using h
      rw [h12]
    rw [← h2]
    exact assetInv_mkNew a _ hinv1
  | some assetNode =>
    obtain ⟨as, ha⟩ := hinv1 a.assetId assetNode hl
    simp only [hl, ha] at h
    by_cases hdup : as.any (fun x => x.assetSelector == a.assetSelector)
    · rw [if_pos hdup] at h
      have h2 : (mkNewAssetNode (topLevelGraph s ("Assets")).2 a
          (topLevelGraph s ("Assets")).1).2 = s' := by
        have h12 : mkNewAssetNode (topLevelGraph s ("Assets")).2 a
            (topLevelGraph s ("Assets")).1 = (n, s') := by simpa using h
        rw [h12]
      rw [← h2]
      exact assetInv_mkNew a _ hinv1
    · rw [if_neg hdup] at h
      have hinv2 : AssetInv (setNode (topLevelGraph s ("Assets")).2 assetNode
          { getNode (topLevelGraph s ("Assets")).2 assetNode with
            ann := some (.publishAssets (as ++ [a])) }) := by
        refine assetInv_of_evolves hinv1 (evolves_setPublish ha _) ?_
        simp [setNode]
      have h2 : (mkNewAssetNode (setNode (topLevelGraph s ("Assets")).2 assetNode
          { getNode (topLevelGraph s ("Assets")).2 assetNode with
            ann := some (.publishAssets (as ++ [a])) }) a
          (topLevelGraph s ("Assets")).1).2 = s' := by
        have h12 : mkNewAssetNode (setNode (topLevelGraph s ("Assets")).2 assetNode
            { getNode (topLevelGraph s ("Assets")).2 assetNode with
              ann := some (.publishAssets (as ++ [a])) }) a
            (topLevelGraph s ("Assets")).1 = (n, s') := by simpa using h
        rw [h12]
      rw [← h2]
      exact assetInv_mkNew a _ hinv2

theorem pubAssets_inv {prep : Nat} : ∀ {l : List StackAsset} {s : CState},
    AssetInv s →
    (∀ e, pubAssets prep l s = .error e → False) ∧
    (∀ s', pubAssets prep l s = .ok s' → AssetInv s') := by
  intro l
  induction l with
  | nil =>
    intro s hinv
    constructor
    · intro e h
      simp only [pubAssets] at h
      simp at h
    · intro s' h
      simp only [pubAssets] at h
      obtain rfl : s = s' := by simpa using h
      exact hinv
  | cons a rest ih =>
    intro s hinv
    constructor
    · intro e h
      simp only [pubAssets] at h
      cases hp : publishAsset s a with
      | error e2 => exact publishAsset_no_error hinv hp
      | ok p =>
        obtain ⟨an, s1⟩ := p
        rw [hp] at h
        have hinv1 : AssetInv (dependOn s1 prep an) :=
          assetInv_of_evolves (publishAsset_inv hinv hp) (evolves_dependOn s1 prep an)
            (by simp [dependOn, setNode])
        exact (ih hinv1).1 e h
    · intro s' h
      simp only [pubAssets] at h
      cases hp : publishAsset s a with
      | error e2 => exact absurd hp (publishAsset_no_error hinv)
      | ok p =>
        obtain ⟨an, s1⟩ := p
        rw [hp] at h
        have hinv1 : AssetInv (dependOn s1 prep an) :=
          assetInv_of_evolves (publishAsset_inv hinv hp) (evolves_dependOn s1 prep an)
            (by simp [dependOn, setNode])
        exact (ih hinv1).2 s' h

theorem stackPairBase_assetNodes (w : World) (stId : Nat) (s : CState) :
    (stackPairBase w stId s).2.2.assetNodes = s.assetNodes := by
  simp [stackPairBase, dependOn, addChild, setNode, newNode]

theorem addStackPair_inv {w : World} {fuel rg stId : Nat} {s : CState}
    (hinv : AssetInv s) :
    (∀ e, addStackPair w fuel rg stId s = .error e → e = .outOfFuel) ∧
    (∀ g s', addStackPair w fuel rg stId s = .ok (g, s') → AssetInv s') := by
  have hinvb : AssetInv (stackPairBase w stId s).2.2 :=
    assetInv_of_evolves hinv (stackPairBase_evolves w stId s)
      (stackPairBase_assetNodes w stId s)
  constructor
  · intro e h
    unfold addStackPair at h
    cases haar : addAndRecurse w fuel
        ((getStack w stId).customCloudAssembly.getD
          (stackPairBase w stId s).2.2.cloudAssemblyFileSet).producer rg
        (stackPairBase w stId s).2.2 with
    | error e2 =>
      simp only [haar] at h
      obtain rfl : e2 = e := by simpa using h
      exact addAndRecurse_err haar
    | ok p =>
      obtain ⟨prod, s6⟩ := p
      simp only [haar] at h
      cases hpa : pubAssets (stackPairBase w stId s).2.1
          (getStack w stId).requiredAssets
          (dependOn s6 (stackPairBase w stId s).2.1 prod) with
      | error e2 =>
        have hinv6 : AssetInv (dependOn s6 (stackPairBase w stId s).2.1 prod) :=
          assetInv_of_evolves (assetInv_addAndRecurse hinvb haar)
            (evolves_dependOn _ _ _) (by simp [dependOn, setNode])
        exact absurd hpa (fun hh => (pubAssets_inv hinv6).1 e2 hh)
      | ok s8 =>
        rw [hpa] at h
        simp at h
  · intro g s' h
    unfold addStackPair at h
    cases haar : addAndRecurse w fuel
        ((getStack w stId).customCloudAssembly.getD
          (stackPairBase w stId s).2.2.cloudAssemblyFileSet).producer rg
        (stackPairBase w stId s).2.2 with
    | error e2 =>
      simp only [haar] at h
      simp at h
    | ok p =>
      obtain ⟨prod, s6⟩ := p
      simp only [haar] at h
      cases hpa : pubAssets (stackPairBase w stId s).2.1
          (getStack w stId).requiredAssets
          (dependOn s6 (stackPairBase w stId s).2.1 prod) with
      | error e2 =>
        rw [hpa] at h
        simp at h
      | ok s8 =>
        rw [hpa] at h
        obtain ⟨h1, h2⟩ := by simpa using h
        subst h2
        have hinv6 : AssetInv (dependOn s6 (stackPairBase w stId s).2.1 prod) :=
          assetInv_of_evolves (assetInv_addAndRecurse hinvb haar)
            (evolves_dependOn _ _ _) (by simp [dependOn, setNode])
        exact (pubAssets_inv hinv6).2 s8 hpa

theorem addStacks_inv {w : World} {fuel rg : Nat} : ∀ {l : List Nat}
    {acc : List (Nat × Nat)} {s : CState}, AssetInv s →
    (∀ e, addStacks w fuel rg l acc s = .error e → e = .outOfFuel) ∧
    (∀ sgs s', addStacks w fuel rg l acc s = .ok (sgs, s') → AssetInv s') := by
  intro l
  induction l with
  | nil =>
    intro acc s hinv
    constructor
    · intro e h
      simp only [addStacks] at h
      simp at h
    · intro sgs s' h
      simp only [addStacks] at h
      obtain ⟨h1, h2⟩ := by simpa using h
      subst h2
      exact hinv
  | cons stId rest ih =>
    intro acc s hinv
    constructor
    · intro e h
      simp only [addStacks] at h
      cases hsp : addStackPair w fuel rg stId s with
      | error e2 =>
        rw [hsp] at h
        obtain rfl : e2 = e := by simpa using h
        exact (addStackPair_inv hinv).1 _ hsp
      | ok p =>
        obtain ⟨sg, s1⟩ := p
        rw [hsp] at h
        exact (ih ((addStackPair_inv hinv).2 sg s1 hsp)).1 e h
    · intro sgs s' h
      simp only [addStacks] at h
      cases hsp : addStackPair w fuel rg stId s with
      | error e2 =>
        rw [hsp] at h
        simp at h
      | ok p =>
        obtain ⟨sg, s1⟩ := p
        rw [hsp] at h
        exact (ih ((addStackPair_inv hinv).2 sg s1 hsp)).2 sgs s' h

theorem foldl_assetNodes_pres {α} (f : CState → α → CState)
    (hf : ∀ s x, (f s x).assetNodes = s.assetNodes) :
    ∀ (l : List α) (s : CState), (l.foldl f s).assetNodes = s.assetNodes := by
  intro l
  induction l with
  | nil => intro s; rfl
  | cons a as ih =>
    intro s
    rw [List.foldl_cons, ih, hf]

theorem crossDeps_assetNodes (w : World) (sgs : List (Nat × Nat)) (stackIds : List Nat)
    (s : CState) : (crossDeps w sgs stackIds s).assetNodes = s.assetNodes := by
  unfold crossDeps
  refine foldl_assetNodes_pres _ (fun t x => ?_) _ _
  refine foldl_assetNodes_pres _ (fun t2 d => ?_) _ _
  cases sgs.lookup x with
  | none => rfl
  | some gr =>
    cases sgs.lookup d with
    | none => rfl
    | some dg => simp [dependOn, setNode]

theorem addPres_inv {w : World} {fuel : Nat} {baseline : List Nat} :
    ∀ {l : List Nat} {parent : Nat} {s : CState}, AssetInv s →
    (∀ e, addPres w fuel baseline l parent s = .error e → e = .outOfFuel) ∧
    (∀ s', addPres w fuel baseline l parent s = .ok s' → AssetInv s') := by
  intro l
  induction l with
  | nil =>
    intro parent s hinv
    constructor
    · intro e h
      simp only [addPres] at h
      simp at h
    · intro s' h
      simp only [addPres] at h
      obtain rfl : s = s' := by simpa using h
      exact hinv
  | cons p rest ih =>
    intro parent s hinv
    have hnext : ∀ preNode s1, addAndRecurse w fuel p parent s = .ok (preNode, s1) →
        AssetInv (baseline.foldl (fun acc b => dependOn acc b preNode) s1) := by
      intro preNode s1 ha
      refine assetInv_of_evolves (assetInv_addAndRecurse hinv ha)
        (evolves_preFold _ _ _) ?_
      exact foldl_assetNodes_pres _ (fun t y => by simp [dependOn, setNode]) _ _
    constructor
    · intro e h
      simp only [addPres] at h
      cases ha : addAndRecurse w fuel p parent s with
      | error e2 =>
        rw [ha] at h
        obtain rfl : e2 = e := by simpa using h
        exact addAndRecurse_err ha
      | ok q =>
        obtain ⟨preNode, s1⟩ := q
        rw [ha] at h
        exact (ih (hnext preNode s1 ha)).1 e h
    · intro s' h
      simp only [addPres] at h
      cases ha : addAndRecurse w fuel p parent s with
      | error e2 =>
        rw [ha] at h
        simp at h
      | ok q =>
        obtain ⟨preNode, s1⟩ := q
        rw [ha] at h
        exact (ih (hnext preNode s1 ha)).2 s' h

theorem addPosts_inv {w : World} {fuel : Nat} {baseline : List Nat} :
    ∀ {l : List Nat} {parent : Nat} {s : CState}, AssetInv s →
    (∀ e, addPosts w fuel baseline l parent s = .error e → e = .outOfFuel) ∧
    (∀ s', addPosts w fuel baseline l parent s = .ok s' → AssetInv s') := by
  intro l
  induction l with
  | nil =>
    intro parent s hinv
    constructor
    · intro e h
      simp only [addPosts] at h
      simp at h
    · intro s' h
      simp only [addPosts] at h
      obtain rfl : s = s' := by simpa using h
      exact hinv
  | cons p rest ih =>
    intro parent s hinv
    have hnext : ∀ postNode s1, addAndRecurse w fuel p parent s = .ok (postNode, s1) →
        AssetInv (baseline.foldl (fun acc b => dependOn acc postNode b) s1) := by
      intro postNode s1 ha
      refine assetInv_of_evolves (assetInv_addAndRecurse hinv ha)
        (evolves_postFold _ _ _) ?_
      exact foldl_assetNodes_pres _ (fun t y => by simp [dependOn, setNode]) _ _
    constructor
    · intro e h
      simp only [addPosts] at h
      cases ha : addAndRecurse w fuel p parent s with
      | error e2 =>
        rw [ha] at h
        obtain rfl : e2 = e := by simpa using h
        exact addAndRecurse_err ha
      | ok q =>
        obtain ⟨postNode, s1⟩ := q
        rw [ha] at h
        exact (ih (hnext postNode s1 ha)).1 e h
    · intro s' h
      simp only [addPosts] at h
      cases ha : addAndRecurse w fuel p parent s with
      | error e2 =>
        rw [ha] at h
        simp at h
      | ok q =>
        obtain ⟨postNode, s1⟩ := q
        rw [ha] at h
        exact (ih (hnext postNode s1 ha)).2 s' h

theorem addPrePost_inv {w : World} {fuel : Nat} {pre post : List Nat}
    {parent : Nat} {s : CState} (hinv : AssetInv s) :
    (∀ e, addPrePost w fuel pre post parent s = .error e → e = .outOfFuel) ∧
    (∀ s', addPrePost w fuel pre post parent s = .ok s' → AssetInv s') := by
  constructor
  · intro e h
    simp only [addPrePost] at h
    cases hp : addPres w fuel (getNode s parent).children pre parent s with
    | error e2 =>
      rw [hp] at h
      obtain rfl : e2 = e := by simpa using h
      exact (addPres_inv hinv).1 _ hp
    | ok s1 =>
      rw [hp] at h
      exact (addPosts_inv ((addPres_inv hinv).2 s1 hp)).1 e h
  · intro s' h
    simp only [addPrePost] at h
    cases hp : addPres w fuel (getNode s parent).children pre parent s with
    | error e2 =>
      rw [hp] at h
      simp at h
    | ok s1 =>
      rw [hp] at h
      exact (addPosts_inv ((addPres_inv hinv).2 s1 hp)).2 s' h

theorem addStage_inv {w : World} {fuel : Nat} {stage : StageDeployment} {s : CState}
    (hinv : AssetInv s) :
    (∀ e, addStage w fuel stage s = .error e → e = .outOfFuel) ∧
    (∀ g s', addStage w fuel stage s = .ok (g, s') → AssetInv s') := by
  have hinv1 : AssetInv (newNode s stage.stageName (some .group)).2 :=
    assetInv_of_evolves hinv (evolves_newNode _ _ _) (by simp [newNode])
  constructor
  · intro e h
    simp only [addStage] at h
    cases hst : addStacks w fuel (newNode s stage.stageName (some .group)).1
        stage.stageStacks [] (newNode s stage.stageName (some .group)).2 with
    | error e2 =>
      simp only [hst] at h
      obtain rfl : e2 = e := by simpa using h
      exact (addStacks_inv hinv1).1 _ hst
    | ok p =>
      obtain ⟨sgs, s2⟩ := p
      simp only [hst] at h
      have hinv3 : AssetInv (crossDeps w sgs stage.stageStacks s2) :=
        assetInv_of_evolves ((addStacks_inv hinv1).2 sgs s2 hst)
          (crossDeps_evolves _ _ _ _) (crossDeps_assetNodes _ _ _ _)
      cases hpp : addPrePost w fuel stage.pre stage.post
          (newNode s stage.stageName (some .group)).1
          (crossDeps w sgs stage.stageStacks s2) with
      | error e2 =>
        rw [hpp] at h
        obtain rfl : e2 = e := by simpa using h
        exact (addPrePost_inv hinv3).1 _ hpp
      | ok s4 =>
        rw [hpp] at h
        simp at h
  · intro g s' h
    simp only [addStage] at h
    cases hst : addStacks w fuel (newNode s stage.stageName (some .group)).1
        stage.stageStacks [] (newNode s stage.stageName (some .group)).2 with
    | error e2 =>
      simp only [hst] at h
      simp at h
    | ok p =>
      obtain ⟨sgs, s2⟩ := p
      simp only [hst] at h
      have hinv3 : AssetInv (crossDeps w sgs stage.stageStacks s2) :=
        assetInv_of_evolves ((addStacks_inv hinv1).2 sgs s2 hst)
          (crossDeps_evolves _ _ _ _) (crossDeps_assetNodes _ _ _ _)
      cases hpp : addPrePost w fuel stage.pre stage.post
          (newNode s stage.stageName (some .group)).1
          (crossDeps w sgs stage.stageStacks s2) with
      | error e2 =>
        rw [hpp] at h
        simp at h
      | ok s4 =>
        rw [hpp] at h
        obtain ⟨h1, h2⟩ := by simpa using h
        subst h2
        exact (addPrePost_inv hinv3).2 s4 hpp

theorem addStagesList_inv {w : World} {fuel : Nat} : ∀ {l : List StageDeployment}
    {acc : List Nat} {s : CState}, AssetInv s →
    (∀ e, addStagesList w fuel l acc s = .error e → e = .outOfFuel) ∧
    (∀ ids s', addStagesList w fuel l acc s = .ok (ids, s') → AssetInv s') := by
  intro l
  induction l with
  | nil =>
    intro acc s hinv
    constructor
    · intro e h
      simp only [addStagesList] at h
      simp at h
    · intro ids s' h
      simp only [addStagesList] at h
      obtain ⟨h1, h2⟩ := by simpa using h
      subst h2
      exact hinv
  | cons st rest ih =>
    intro acc s hinv
    constructor
    · intro e h
      simp only [addStagesList] at h
      cases hs : addStage w fuel st s with
      | error e2 =>
        rw [hs] at h
        obtain rfl : e2 = e := by simpa using h
        exact (addStage_inv hinv).1 _ hs
      | ok p =>
        obtain ⟨g1, s1⟩ := p
        rw [hs] at h
        exact (ih ((addStage_inv hinv).2 g1 s1 hs)).1 e h
    · intro ids s' h
      simp only [addStagesList] at h
      cases hs : addStage w fuel st s with
      | error e2 =>
        rw [hs] at h
        simp at h
      | ok p =>
        obtain ⟨g1, s1⟩ := p
        rw [hs] at h
        exact (ih ((addStage_inv hinv).2 g1 s1 hs)).2 ids s' h

theorem addWave_inv {w : World} {fuel : Nat} {wave : Wave} {s : CState}
    (hinv : AssetInv s) :
    (∀ e, addWave w fuel wave s = .error e → e = .outOfFuel) ∧
    (∀ g s', addWave w fuel wave s = .ok (g, s') → AssetInv s') := by
  have hMain : (∀ e, (match wave.stages with
      | [st] => addStage w fuel st s
      | stages =>
        match addStagesList w fuel stages [] s with
        | .error e => .error e
        | .ok (ids, s1) =>
          .ok ((newNode s1 wave.id (some .group)).1,
            ids.foldl (fun acc c => addChild acc (newNode s1 wave.id (some .group)).1 c)
              (newNode s1 wave.id (some .group)).2)) = .error e → e = .outOfFuel) ∧
      (∀ g2 s3, (match wave.stages with
      | [st] => addStage w fuel st s
      | stages =>
        match addStagesList w fuel stages [] s with
        | .error e => .error e
        | .ok (ids, s1) =>
          .ok ((newNode s1 wave.id (some .group)).1,
            ids.foldl (fun acc c => addChild acc (newNode s1 wave.id (some .group)).1 c)
              (newNode s1 wave.id (some .group)).2)) = .ok (g2, s3) → AssetInv s3) := by
    match hws : wave.stages with
    | [st] => exact ⟨fun e h => (addStage_inv hinv).1 e h,
        fun g2 s3 h => (addStage_inv hinv).2 g2 s3 h⟩
    | [] =>
      constructor
      · intro e h
        simp only [addStagesList] at h
        simp at h
      · intro g2 s3 h
        simp only [addStagesList, List.reverse_nil, List.foldl_nil,
          Except.ok.injEq, Prod.mk.injEq] at h
        obtain ⟨h1, h2⟩ := h
        subst h2
        exact assetInv_of_evolves hinv (evolves_newNode _ _ _) (by simp [newNode])
    | st1 :: st2 :: rest =>
      constructor
      · intro e h
        simp only [] at h
        cases hsl : addStagesList w fuel (st1 :: st2 :: rest) [] s with
        | error e2 =>
          simp only [hsl] at h
          obtain rfl : e2 = e := by simpa using h
          exact (addStagesList_inv hinv).1 _ hsl
        | ok p =>
          obtain ⟨ids, s1⟩ := p
          simp only [hsl] at h
          simp at h
      · intro g2 s3 h
        simp only [] at h
        cases hsl : addStagesList w fuel (st1 :: st2 :: rest) [] s with
        | error e2 =>
          simp [hsl] at h
        | ok p =>
          obtain ⟨ids, s1⟩ := p
          simp only [hsl, Except.ok.injEq, Prod.mk.injEq] at h
          obtain ⟨h1, h2⟩ := h
          subst h2
          have hinv1 : AssetInv (newNode s1 wave.id (some .group)).2 :=
            assetInv_of_evolves ((addStagesList_inv hinv).2 ids s1 hsl)
              (evolves_newNode _ _ _) (by simp [newNode])
          refine assetInv_of_evolves hinv1
            (evolves_foldl _ (fun t c => evolves_addChild t _ c) _ _) ?_
          exact foldl_assetNodes_pres _ (fun t c => by simp [addChild, setNode]) _ _
  constructor
  · intro e h
    unfold addWave at h
    simp only [] at h
    cases hbuilt : (match wave.stages with
        | [st] => addStage w fuel st s
        | stages =>
          match addStagesList w fuel stages [] s with
          | .error e => .error e
          | .ok (ids, s1) =>
            .ok ((newNode s1 wave.id (some .group)).1,
              ids.foldl (fun acc c => addChild acc (newNode s1 wave.id (some .group)).1 c)
                (newNode s1 wave.id (some .group)).2)) with
    | error e2 =>
      rw [hbuilt] at h
      obtain rfl : e2 = e := by simpa using h
      exact hMain.1 _ hbuilt
    | ok p =>
      obtain ⟨rg, s3⟩ := p
      rw [hbuilt] at h
      simp only [] at h
      cases hpp : addPrePost w fuel wave.pre wave.post rg s3 with
      | error e2 =>
        rw [hpp] at h
        obtain rfl : e2 = e := by simpa using h
        exact (addPrePost_inv (hMain.2 rg s3 hbuilt)).1 _ hpp
      | ok s4 =>
        rw [hpp] at h
        simp at h
  · intro g s' h
    unfold addWave at h
    simp only [] at h
    cases hbuilt : (match wave.stages with
        | [st] => addStage w fuel st s
        | stages =>
          match addStagesList w fuel stages [] s with
          | .error e => .error e
          | .ok (ids, s1) =>
            .ok ((newNode s1 wave.id (some .group)).1,
              ids.foldl (fun acc c => addChild acc (newNode s1 wave.id (some .group)).1 c)
                (newNode s1 wave.id (some .group)).2)) with
    | error e2 =>
      rw [hbuilt] at h
      simp at h
    | ok p =>
      obtain ⟨rg, s3⟩ := p
      rw [hbuilt] at h
      simp only [] at h
      cases hpp : addPrePost w fuel wave.pre wave.post rg s3 with
      | error e2 =>
        rw [hpp] at h
        simp at h
      | ok s4 =>
        rw [hpp] at h
        obtain ⟨h1, h2⟩ := by simpa using h
        subst h2
        refine assetInv_of_evolves ((addPrePost_inv (hMain.2 rg s3 hbuilt)).2 s4 hpp)
          (evolves_dependOn _ _ _) (by simp [dependOn, setNode])

theorem addWaves_inv {w : World} {fuel : Nat} : ∀ {l : List Wave}
    {acc : List Nat} {s : CState}, AssetInv s →
    (∀ e, addWaves w fuel l acc s = .error e → e = .outOfFuel) ∧
    (∀ ids s', addWaves w fuel l acc s = .ok (ids, s') → AssetInv s') := by
  intro l
  induction l with
  | nil =>
    intro acc s hinv
    constructor
    · intro e h
      simp only [addWaves] at h
      simp at h
    · intro ids s' h
      simp only [addWaves] at h
      obtain ⟨h1, h2⟩ := by simpa using h
      subst h2
      exact hinv
  | cons wv rest ih =>
    intro acc s hinv
    constructor
    · intro e h
      simp only [addWaves] at h
      cases hw : addWave w fuel wv s with
      | error e2 =>
        rw [hw] at h
        obtain rfl : e2 = e := by simpa using h
        exact (addWave_inv hinv).1 _ hw
      | ok p =>
        obtain ⟨g1, s1⟩ := p
        rw [hw] at h
        exact (ih ((addWave_inv hinv).2 g1 s1 hw)).1 e h
    · intro ids s' h
      simp only [addWaves] at h
      cases hw : addWave w fuel wv s with
      | error e2 =>
        rw [hw] at h
        simp at h
      | ok p =>
        obtain ⟨g1, s1⟩ := p
        rw [hw] at h
        exact (ih ((addWave_inv hinv).2 g1 s1 hw)).2 ids s' h

theorem assetInv_markBuild {s : CState} {n : Nat} (hinv : AssetInv s) :
    AssetInv (markBuildStep s n) := by
  unfold markBuildStep
  cases hann : (getNode s n).ann with
  | none => exact hinv
  | some g =>
    cases g with
    | step st b =>
      intro k v h
      obtain ⟨as, ha⟩ := hinv k v (by simpa [setNode] using h)
      by_cases hv : n = v
      · subst hv
        rw [hann] at ha
        simp at ha
      · rw [getNode_setNode_ne _ _ _ _ hv]
        exact ⟨as, ha⟩
    | group => exact hinv
    | stackGroup st => exact hinv
    | publishAssets as => exact hinv
    | selfUpdate => exact hinv
    | prepare st => exact hinv
    | execute st => exact hinv

theorem evolves_lastPrep (s : CState) (x : Nat) :
    Evolves s { s with lastPreparationNode := x } := evolves_of_eq rfl rfl rfl

theorem evolves_selfMutation (s : CState) (sy : Nat) :
    Evolves s (selfMutationState s sy).2 := by
  simp only [selfMutationState]
  exact (evolves_newNode _ _ _).etrans ((evolves_addChild _ _ _).etrans
    ((evolves_newNode _ _ _).etrans ((evolves_addChild _ _ _).etrans
      ((evolves_dependOn _ _ _).etrans (evolves_lastPrep _ _)))))

theorem selfMutationState_assetNodes (s : CState) (sy : Nat) :
    (selfMutationState s sy).2.assetNodes = s.assetNodes := by
  simp [selfMutationState, dependOn, addChild, setNode, newNode]

theorem assetInv_selfMutation {s : CState} (sy : Nat) (hinv : AssetInv s) :
    AssetInv (selfMutationState s sy).2 :=
  assetInv_of_evolves hinv (evolves_selfMutation s sy) (selfMutationState_assetNodes s sy)

/-- The constructor's only failures are fuel exhaustion (an embedding
artifact) and the missing-synth-output error; in particular the asset
invariant violation never escapes a compilation. -/
theorem graphFromBlueprint_err {w : World} {bp : Blueprint} {sm : Bool} {fuel : Nat}
    {e : CErr} (h : graphFromBlueprint w bp sm fuel = .error e) :
    e = .outOfFuel ∨
    (e = .missingOutput
        ("The synth step must produce the cloud assembly artifact, but doesn\x27t: "
          ++ (getStep w bp.synthStep).name) ∧
      (getStep w bp.synthStep).primaryOutput = none) := by
  unfold graphFromBlueprint at h
  split at h
  · rename_i e2 heqA
    obtain rfl : e2 = e := by simpa using h
    exact Or.inl (addAndRecurse_err heqA)
  · rename_i synthNode s2 heqA
    simp only [] at h
    split at h
    · rename_i heqO
      right
      refine ⟨?_, heqO⟩
      have := by simpa using h
      exact this.symm
    · rename_i ca heqO
      split at h
      · rename_i e2 heqW
        obtain rfl : e2 = e := by simpa using h
        left
        have hinvB : AssetInv (topLevelGraph initState ("Build")).2 :=
          assetInv_topLevel _ assetInv_initState
        have hinv2 : AssetInv s2 := assetInv_addAndRecurse hinvB heqA
        have hinv4 : AssetInv { markBuildStep s2 synthNode with
            lastPreparationNode := synthNode } := assetInv_markBuild hinv2
        have hinv5 : AssetInv { { markBuildStep s2 synthNode with
            lastPreparationNode := synthNode } with
            cloudAssemblyFileSet := ca } := hinv4
        have hinv6 : AssetInv (if sm then
            (some (selfMutationState { { markBuildStep s2 synthNode with
                lastPreparationNode := synthNode } with
                cloudAssemblyFileSet := ca } synthNode).1,
              (selfMutationState { { markBuildStep s2 synthNode with
                lastPreparationNode := synthNode } with
                cloudAssemblyFileSet := ca } synthNode).2)
          else (none, { { markBuildStep s2 synthNode with
              lastPreparationNode := synthNode } with
              cloudAssemblyFileSet := ca })).2 := by
          cases sm with
          | true =>
            simp only [if_true]
            exact assetInv_selfMutation _ hinv5
          | false =>
            simp only [if_false]
            exact hinv5
        exact (addWaves_inv hinv6).1 _ heqW
      · rename_i waveIds s7 heqW
        simp at h

/-! ### C7: the missing-synth-output error -/

theorem selfMutation_ca (s : CState) (sy : Nat) :
    (selfMutationState s sy).2.cloudAssemblyFileSet = s.cloudAssemblyFileSet :=
  (evolves_selfMutation s sy).ca_eq

/-- C7: for every blueprint whose synth Step declares no primary output,
the constructor fails with the missing-output error, the message carries
the synth step\x27s name, and no result is returned; for every blueprint
whose synth Step does declare an output, the missing-output error is
never raised and a successful construction records that output as the
shared cloud-assembly file set.  (Fuel covering all Steps makes the
embedding\x27s fuel artifact irrelevant.) -/
theorem missing_output_fatal (w : World) (bp : Blueprint) (sm : Bool) (fuel : Nat)
    (hwf : WFWorld w) (hsy : bp.synthStep < w.steps.length)
    (hfuel : w.steps.length + 1 ≤ fuel) :
    ((getStep w bp.synthStep).primaryOutput = none →
      graphFromBlueprint w bp sm fuel =
        .error (.missingOutput
          ("The synth step must produce the cloud assembly artifact, but doesn\x27t: "
            ++ (getStep w bp.synthStep).name)) ∧
      ∀ r, graphFromBlueprint w bp sm fuel ≠ .ok r) ∧
    (∀ ca, (getStep w bp.synthStep).primaryOutput = some ca →
      (∀ m, graphFromBlueprint w bp sm fuel ≠ .error (.missingOutput m)) ∧
      (∀ r, graphFromBlueprint w bp sm fuel = .ok r →
        r.state.cloudAssemblyFileSet = ca)) := by
  have hadded : (topLevelGraph initState ("Build")).2.added = [] := rfl
  obtain ⟨hA, _⟩ := run_total w hwf fuel
  have hmb : MemoBound w (topLevelGraph initState ("Build")).2 := by
    refine ⟨?_, ?_⟩
    · rw [hadded]; simp
    · rw [hadded]; simp
  obtain ⟨n, s2, hok, _, _⟩ := hA bp.synthStep (topLevelGraph initState ("Build")).1
    (topLevelGraph initState ("Build")).2 hsy hmb (by rw [hadded]; simpa using hfuel)
  constructor
  · intro hnone
    have hgoal : graphFromBlueprint w bp sm fuel =
        .error (.missingOutput
          ("The synth step must produce the cloud assembly artifact, but doesn\x27t: "
            ++ (getStep w bp.synthStep).name)) := by
      unfold graphFromBlueprint
      rw [hok]
      simp only []
      rw [hnone]
    refine ⟨hgoal, ?_⟩
    intro r hr
    rw [hgoal] at hr
    simp at hr
  · intro ca hsome
    constructor
    · intro m hm
      rcases graphFromBlueprint_err hm with h1 | ⟨_, h2⟩
      · simp at h1
      · rw [hsome] at h2
        simp at h2
    · intro r hr
      unfold graphFromBlueprint at hr
      rw [hok] at hr
      simp only [] at hr
      rw [hsome] at hr
      simp only [] at hr
      split at hr
      · simp at hr
      · rename_i waveIds s7 heqW
        have h12 := Except.ok.inj hr
        rw [← h12]
        show (chainWaves s7 waveIds).cloudAssemblyFileSet = ca
        rw [(chainWaves_evolves waveIds s7).ca_eq, (addWaves_ok heqW).1.ca_eq]
        cases sm with
        | false => rfl
        | true => exact (evolves_selfMutation _ _).ca_eq

/-- A one-step world whose only Step ("Synth") declares no primary
output. -/
def wC7n : World := ⟨[⟨("Synth"), [], none, false⟩], []⟩

/-- A one-step world whose only Step ("Synth") declares a primary
output. -/
def wC7s : World := ⟨[⟨("Synth"), [], some ⟨0⟩, false⟩], []⟩

/-- The wave-free blueprint over the single Step. -/
def bpC7 : Blueprint := ⟨0, []⟩

theorem missing_output_fatal_witness :
    (graphFromBlueprint wC7n bpC7 false 2 =
      .error (.missingOutput
        ("The synth step must produce the cloud assembly artifact, but doesn\x27t: Synth")) ∧
     ∀ r, graphFromBlueprint wC7n bpC7 false 2 ≠ .ok r) ∧
    ((∀ m, graphFromBlueprint wC7s bpC7 false 2 ≠ .error (.missingOutput m)) ∧
     ∀ r, graphFromBlueprint wC7s bpC7 false 2 = .ok r →
       r.state.cloudAssemblyFileSet = ⟨0⟩) := by
  constructor
  · exact (missing_output_fatal wC7n bpC7 false 2
      (by intro st hst d hd; simp [wC7n] at hst; subst hst; simp at hd)
      (by decide) (by decide)).1 rfl
  · exact (missing_output_fatal wC7s bpC7 false 2
      (by intro st hst d hd; simp [wC7s] at hst; subst hst; simp at hd)
      (by decide) (by decide)).2 ⟨0⟩ rfl

/-! ### C9: the asset-memo invariant violation -/

theorem chainWaves_assetNodes : ∀ (ws : List Nat) (s : CState),
    (chainWaves s ws).assetNodes = s.assetNodes
  | [], _ => rfl
  | [_], _ => rfl
  | a :: b :: rest, s => chainWaves_assetNodes (b :: rest) (dependOn s b a)

/-- A successful compilation leaves the asset memo satisfying the
publish-annotation invariant. -/
theorem graphFromBlueprint_inv {w : World} {bp : Blueprint} {sm : Bool} {fuel : Nat}
    {r : CompileResult} (h : graphFromBlueprint w bp sm fuel = .ok r) :
    AssetInv r.state := by
  unfold graphFromBlueprint at h
  split at h
  · simp at h
  · rename_i synthNode s2 heqA
    simp only [] at h
    split at h
    · simp at h
    · rename_i ca heqO
      split at h
      · simp at h
      · rename_i waveIds s7 heqW
        have hinvB : AssetInv (topLevelGraph initState ("Build")).2 :=
          assetInv_topLevel _ assetInv_initState
        have hinv2 : AssetInv s2 := assetInv_addAndRecurse hinvB heqA
        have hinv5 : AssetInv { { markBuildStep s2 synthNode with
            lastPreparationNode := synthNode } with
            cloudAssemblyFileSet := ca } := assetInv_markBuild hinv2
        have hinv6 : AssetInv (if sm then
            (some (selfMutationState { { markBuildStep s2 synthNode with
                lastPreparationNode := synthNode } with
                cloudAssemblyFileSet := ca } synthNode).1,
              (selfMutationState { { markBuildStep s2 synthNode with
                lastPreparationNode := synthNode } with
                cloudAssemblyFileSet := ca } synthNode).2)
          else (none, { { markBuildStep s2 synthNode with
              lastPreparationNode := synthNode } with
              cloudAssemblyFileSet := ca })).2 := by
          cases sm with
          | true =>
            simp only [if_true]
            exact assetInv_selfMutation _ hinv5
          | false =>
            simp only [if_false]
            exact hinv5
        have hinv7 : AssetInv s7 := (addWaves_inv hinv6).2 waveIds s7 heqW
        rw [← Except.ok.inj h]
        show AssetInv (chainWaves s7 waveIds)
        exact assetInv_of_evolves hinv7 (chainWaves_evolves waveIds s7)
          (chainWaves_assetNodes waveIds s7)

/-- C9: `publishAsset` fails exactly when the assetId lookup in the
asset memo yields a node whose annotation is not the asset-publish
variant, and then with precisely the invariant-violation message built
from the node\x27s identity and its actual variant; and the branch is
unreachable in any compilation: no compilation ever returns that error,
and every successful compilation\x27s asset memo maps only to
publish-annotated nodes. -/
theorem publishAsset_wrong_variant_unreachable (s : CState) (a : StackAsset) :
    ((∃ e, publishAsset s a = .error e) ↔
      (∃ n, (topLevelGraph s ("Assets")).2.assetNodes.lookup a.assetId = some n ∧
        (∀ as, (getNode (topLevelGraph s ("Assets")).2 n).ann ≠
          some (.publishAssets as)) ∧
        publishAsset s a =
          .error (.wrongDataType (mkWrongMsg (topLevelGraph s ("Assets")).2 n)))) ∧
    (∀ w bp sm fuel m, graphFromBlueprint w bp sm fuel ≠
      .error (.wrongDataType m)) ∧
    (∀ w bp sm fuel r, graphFromBlueprint w bp sm fuel = .ok r →
      AssetInv r.state) := by
  refine ⟨⟨?_, ?_⟩, ?_, ?_⟩
  · rintro ⟨e, h⟩
    unfold publishAsset at h
    simp only [] at h
    cases hl : (topLevelGraph s ("Assets")).2.assetNodes.lookup a.assetId with
    | none =>
      rw [hl] at h
      simp at h
    | some n =>
      rw [hl] at h
      simp only [] at h
      cases hann : (getNode (topLevelGraph s ("Assets")).2 n).ann with
      | none => exact ⟨n, rfl, by simp [hann], by simp [publishAsset, hl, hann]⟩
      | some g =>
        cases g with
        | publishAssets as =>
          rw [hann] at h
          simp at h
        | group => exact ⟨n, rfl, by simp [hann], by simp [publishAsset, hl, hann]⟩
        | stackGroup st => exact ⟨n, rfl, by simp [hann], by simp [publishAsset, hl, hann]⟩
        | step st b => exact ⟨n, rfl, by simp [hann], by simp [publishAsset, hl, hann]⟩
        | selfUpdate => exact ⟨n, rfl, by simp [hann], by simp [publishAsset, hl, hann]⟩
        | prepare st => exact ⟨n, rfl, by simp [hann], by simp [publishAsset, hl, hann]⟩
        | execute st => exact ⟨n, rfl, by simp [hann], by simp [publishAsset, hl, hann]⟩
  · rintro ⟨n, _, _, heq⟩
    exact ⟨_, heq⟩
  · intro w bp sm fuel m hm
    rcases graphFromBlueprint_err hm with h1 | ⟨h1, _⟩ <;> simp at h1
  · intro w bp sm fuel r hr
    exact graphFromBlueprint_inv hr

/-- A corrupted state whose asset memo points the assetId "A" at a
group-annotated node, exercising the invariant-violation branch. -/
def sBadC9 : CState :=
  { g := [⟨"", some .group, [1], []⟩, ⟨("Grp"), some .group, [], []⟩]
    added := []
    assetNodes := [(("A"), 1)]
    lastPreparationNode := 0
    cloudAssemblyFileSet := ⟨0⟩
    fileAssetCtr := 0
    dockerAssetCtr := 0 }

/-- An asset with the memoized id "A". -/
def aC9 : StackAsset := ⟨("A"), ("sel"), .file⟩

theorem publishAsset_wrong_variant_unreachable_witness :
    (∃ n, (topLevelGraph sBadC9 ("Assets")).2.assetNodes.lookup aC9.assetId = some n ∧
      (∀ as, (getNode (topLevelGraph sBadC9 ("Assets")).2 n).ann ≠
        some (.publishAssets as)) ∧
      publishAsset sBadC9 aC9 =
        .error (.wrongDataType (mkWrongMsg (topLevelGraph sBadC9 ("Assets")).2 n))) ∧
    (∀ m, graphFromBlueprint wC7s bpC7 false 2 ≠ .error (.wrongDataType m)) ∧
    (∀ r, graphFromBlueprint wC7s bpC7 false 2 = .ok r → AssetInv r.state) := by
  refine ⟨?_, ?_, ?_⟩
  · exact (publishAsset_wrong_variant_unreachable sBadC9 aC9).1.1
      ⟨.wrongDataType (("Grp has the wrong data.type: group")), rfl⟩
  · intro m
    exact (publishAsset_wrong_variant_unreachable sBadC9 aC9).2.1 wC7s bpC7 false 2 m
  · intro r
    exact (publishAsset_wrong_variant_unreachable sBadC9 aC9).2.2 wC7s bpC7 false 2 r

/-! ### C10: the Pipeline wrapper build guard (`bp-main/pipeline.ts`) -/

/-- The observable state of the `Pipeline` wrapper: the `built` flag,
how many Stages/Waves were accepted into the blueprint, and how many
times `engine.buildDeployment` was invoked. -/
structure PState where
  built : Bool
  stageCalls : Nat
  waveCalls : Nat
  buildCalls : Nat
deriving DecidableEq, Repr

/-- A freshly constructed `Pipeline` (`private built = false`). -/
def pInit : PState := ⟨false, 0, 0, 0⟩

/-- `addStage`: throws after `build()` (the throw precedes any
mutation), otherwise delegates to the blueprint. -/
def pAddStage (p : PState) : Except String PState :=
  if p.built then
    .error ("addStage: can\x27t add Stages anymore after build() has been called")
  else .ok { p with stageCalls := p.stageCalls + 1 }

/-- `addWave`: throws after `build()` — with the same (copy-pasted)
message the source uses in `addStage` — otherwise delegates. -/
def pAddWave (p : PState) : Except String PState :=
  if p.built then
    .error ("addStage: can\x27t add Stages anymore after build() has been called")
  else .ok { p with waveCalls := p.waveCalls + 1 }

/-- `build()`: throws when already built; otherwise invokes
`engine.buildDeployment` and only then sets `built`. -/
def pBuild (p : PState) : Except String PState :=
  if p.built then
    .error ("build() has already been called: can only call it once")
  else .ok { p with buildCalls := p.buildCalls + 1, built := true }

/-- `prepare()`: calls `build()` only when not yet built. -/
def pPrepare (p : PState) : PState :=
  if p.built then p
  else
    match pBuild p with
    | .ok q => q
    | .error _ => p

/-- One public interaction with the wrapper. -/
inductive POp where
  | addStage
  | addWave
  | build
  | prepare
deriving DecidableEq, Repr

/-- Apply one interaction; a thrown error leaves the state unchanged
(every throw in the source precedes any mutation). -/
def applyOp (p : PState) : POp → PState
  | .addStage =>
    match pAddStage p with
    | .ok q => q
    | .error _ => p
  | .addWave =>
    match pAddWave p with
    | .ok q => q
    | .error _ => p
  | .build =>
    match pBuild p with
    | .ok q => q
    | .error _ => p
  | .prepare => pPrepare p

/-- An arbitrary interaction sequence against a fresh wrapper. -/
def runOps (p : PState) (ops : List POp) : PState := ops.foldl applyOp p

theorem pInv_applyOp (p : PState) (op : POp)
    (h : p.buildCalls = if p.built then 1 else 0) :
    (applyOp p op).buildCalls = if (applyOp p op).built then 1 else 0 := by
  cases op <;> cases hb : p.built <;>
    simp_all [applyOp, pAddStage, pAddWave, pBuild, pPrepare]

theorem runOps_inv : ∀ (ops : List POp) (p : PState),
    p.buildCalls = (if p.built then 1 else 0) →
    (runOps p ops).buildCalls = (if (runOps p ops).built then 1 else 0)
  | [], _, h => h
  | op :: rest, p, h => runOps_inv rest (applyOp p op) (pInv_applyOp p op h)

/-- C10: the wrapper enforces at-most-once building — once built,
`build()` throws, `addStage`/`addWave` throw (with the source\x27s exact
messages) and `prepare()` does nothing; while unbuilt, `prepare()` runs
`build()` (which succeeds); and along every interaction sequence from a
fresh wrapper the engine\x27s `buildDeployment` runs at most once. -/
theorem build_at_most_once :
    (∀ p : PState, p.built = true →
      pBuild p = .error (("build() has already been called: can only call it once")) ∧
      pAddStage p =
        .error (("addStage: can\x27t add Stages anymore after build() has been called")) ∧
      pAddWave p =
        .error (("addStage: can\x27t add Stages anymore after build() has been called")) ∧
      pPrepare p = p) ∧
    (∀ p : PState, p.built = false →
      ∃ q, pBuild p = .ok q ∧ q.built = true ∧
        q.buildCalls = p.buildCalls + 1 ∧ pPrepare p = q) ∧
    (∀ ops : List POp, (runOps pInit ops).buildCalls ≤ 1) := by
  refine ⟨?_, ?_, ?_⟩
  · intro p h
    refine ⟨?_, ?_, ?_, ?_⟩ <;> simp [pBuild, pAddStage, pAddWave, pPrepare, h]
  · intro p h
    refine ⟨{ p with buildCalls := p.buildCalls + 1, built := true }, ?_, rfl, rfl, ?_⟩
    · simp [pBuild, h]
    · simp [pPrepare, pBuild, h]
  · intro ops
    have hinv := runOps_inv ops pInit rfl
    rw [hinv]
    cases (runOps pInit ops).built <;> simp

theorem build_at_most_once_witness :
    (pBuild ⟨true, 0, 0, 1⟩ =
      .error (("build() has already been called: can only call it once")) ∧
     pAddStage ⟨true, 0, 0, 1⟩ =
      .error (("addStage: can\x27t add Stages anymore after build() has been called")) ∧
     pAddWave ⟨true, 0, 0, 1⟩ =
      .error (("addStage: can\x27t add Stages anymore after build() has been called")) ∧
     pPrepare ⟨true, 0, 0, 1⟩ = ⟨true, 0, 0, 1⟩) ∧
    (∃ q, pBuild pInit = .ok q ∧ q.built = true ∧
      q.buildCalls = pInit.buildCalls + 1 ∧ pPrepare pInit = q) ∧
    (runOps pInit [.prepare, .build, .addStage, .build, .prepare]).buildCalls ≤ 1 := by
  refine ⟨?_, ?_, ?_⟩
  · exact build_at_most_once.1 ⟨true, 0, 0, 1⟩ rfl
  · exact build_at_most_once.2.1 pInit rfl
  · exact build_at_most_once.2.2 [.prepare, .build, .addStage, .build, .prepare]
